import Mathlib

/-!
# VFSReader: the directory-tree decoder of `src/main.cpp`

A shallow embedding of `ReadFromFile`, `ReadStringFromFile`, `ReadTree` and
`GetNames`, together with the record layout of the directory block, and the
properties of the decoder that follow from the code.

Modelling conventions

* A byte is a `Fin 256`; a `std::string` is a `List Byte`.
* `uint32_t` / `int32_t` objects are kept as their 32-bit pattern, a `Nat`
  taken modulo `2^32`; `toInt32` gives the signed reading.  The object
  representation is little-endian (the platform the program is built for).
* `std::ifstream` is the list of bytes not yet extracted plus the `good()`
  bit.  Once the bit is cleared nothing is extracted any more.
* `std::unique_ptr<DirTree>` is the inductive type `DirTree` whose constructor
  `null` is the empty pointer.
* `int32_t terminator;` and `int32_t nameLength;` in `ReadTree` have no
  initialiser and the two raw `file.read` calls that fill them are not
  checked.  What the variables hold before the read is a parameter of the
  model (`Locals`, one per activation of `ReadTree`): a statement quantified
  over `stale` holds whatever those bytes are, and the evaluations at
  `stale0` and `staleSentinel` fix them.
* Allocation failure (`std::bad_alloc`) is outside the model.
* The nesting of `ReadTree` activations is the bound of `ReadTreeFuel`: a bound
  of `k` admits `k` activations inside one another and `none` is returned when
  one more would be needed.  `ReadTreeFields`, `slotCall` and `callAt` name the
  stages of one activation and the recursive calls it makes; `ReadTreeFuel_succ_eq`
  ties them to `ReadTreeFuel`.
-/

namespace VFSReader

/-- One byte of the file or of an object representation. -/
abbrev Byte := Fin 256

/-- Little-endian object representation, `n` bytes wide, of the value `v`
(reduced modulo `256^n`). -/
def toBytes : Nat → Nat → List Byte
  | 0, _ => []
  | n + 1, v => ⟨v % 256, Nat.mod_lt v (by decide)⟩ :: toBytes n (v / 256)

/-- Value of a little-endian object representation. -/
def fromBytes : List Byte → Nat
  | [] => 0
  | b :: bs => b.val + 256 * fromBytes bs

/-- Signed reading of a 32-bit pattern (`int32_t`). -/
def toInt32 (v : Nat) : Int :=
  if v % 4294967296 < 2147483648 then (v % 4294967296 : Nat)
  else ((v % 4294967296 : Nat) : Int) - 4294967296

/-- The record `struct geVFile_Time`. -/
structure geVFile_Time where
  Time1 : Nat
  Time2 : Nat
deriving DecidableEq

/-- The record `struct geVFile_Hints`. -/
structure geVFile_Hints where
  HintDataLength : Nat
  HintData : List Byte
deriving DecidableEq

/-- The pointer `std::unique_ptr<DirTree>`: either empty (`null`) or owning a `struct DirTree`. -/
inductive DirTree where
  | null : DirTree
  | node (Name : List Byte) (Time : geVFile_Time) (AttributeFlags Size Offset : Nat)
      (Hints : geVFile_Hints) (Parent Children Siblings : DirTree) : DirTree
deriving DecidableEq

/-- The macro `#define DIRTREE_LIST_TERMINATED 0xFFFFFFFF`. -/
def DIRTREE_LIST_TERMINATED : Nat := 0xFFFFFFFF

/-- The stream `std::ifstream` as far as the decoder sees it: the bytes from the get position to the end
of the file, and whether no error bit is set (`good()`). -/
structure ifstream where
  rest : List Byte
  good : Bool
deriving DecidableEq

/-- The call `file.read(buf, n)`: on a stream that is not good nothing is extracted and the buffer is left
as it was; otherwise `n` bytes are extracted into the front of the buffer, and when fewer than
`n` are left those are extracted, the remainder of the buffer keeps its old contents and the
stream is no longer good (`eofbit | failbit`). -/
def ifstream.read (file : ifstream) (buf : List Byte) (n : Nat) : ifstream × List Byte :=
  if file.good then
    if n ≤ file.rest.length then
      (⟨file.rest.drop n, true⟩, file.rest.take n ++ buf.drop n)
    else
      (⟨[], false⟩, file.rest ++ buf.drop file.rest.length)
  else
    (⟨file.rest, false⟩, buf)

/-- The template `template <typename T> bool ReadFromFile(std::ifstream&, T&)` on the object representation
of `data` (`sizeof(T)` is the length of that representation). -/
def ReadFromFile (file : ifstream) (data : List Byte) : Bool × ifstream × List Byte :=
  let r := file.read data data.length
  (r.1.good, r.1, r.2)

/-- The instance `ReadFromFile<uint32_t>`. -/
def ReadFromFile_u32 (file : ifstream) (data : Nat) : Bool × ifstream × Nat :=
  let r := ReadFromFile file (toBytes 4 data)
  (r.1, r.2.1, fromBytes r.2.2)

/-- The instance `ReadFromFile<geVFile_Time>`: eight bytes, `Time1` first. -/
def ReadFromFile_Time (file : ifstream) (data : geVFile_Time) :
    Bool × ifstream × geVFile_Time :=
  let r := ReadFromFile file (toBytes 4 data.Time1 ++ toBytes 4 data.Time2)
  (r.1, r.2.1, ⟨fromBytes (r.2.2.take 4), fromBytes (r.2.2.drop 4)⟩)

/-- The call `std::string::resize(n)`: truncate, or pad with NUL bytes. -/
def resize (s : List Byte) (n : Nat) : List Byte :=
  s.take n ++ List.replicate (n - s.length) 0

/-- The function `bool ReadStringFromFile(std::ifstream&, std::string&, int32_t)`. -/
def ReadStringFromFile (file : ifstream) (outString : List Byte) (length : Int) :
    Bool × ifstream × List Byte :=
  if length ≤ 0 then
    (false, file, outString)
  else
    let s := resize outString length.toNat
    let r := file.read s length.toNat
    (r.1.good, r.1, r.2)

/-- What the two uninitialised `int32_t` locals of one activation of `ReadTree` hold before the
unchecked `file.read` into them. -/
structure Locals where
  terminator : Nat
  nameLength : Nat

/-- The function `bool ReadTree(std::ifstream&, std::unique_ptr<DirTree>&)` with a bound on the nesting of
calls.  `stale []` gives the indeterminate locals of this activation, `stale (false :: p)` those
of the activations below the children slot and `stale (true :: p)` those below the siblings slot.
The result is the returned `bool`, the stream afterwards and the caller's `TreePtr` afterwards
(whatever it held before is overwritten on every path); `none` means the bound was hit.  The
branch `if (!TreePtr) return false;` is left out: `std::make_unique` never yields an empty
pointer. -/
def ReadTreeFuel : Nat → (List Bool → Locals) → ifstream → Option (Bool × ifstream × DirTree)
  | 0, _, _ => none
  | fuel + 1, stale, file =>
    match file.read (toBytes 4 (stale []).terminator) 4 with
    | (file, terminator) =>
    if fromBytes terminator = DIRTREE_LIST_TERMINATED then
      some (true, file, DirTree.null)
    else
    match file.read (toBytes 4 (stale []).nameLength) 4 with
    | (file, nameLength) =>
    match ReadStringFromFile file [] (toInt32 (fromBytes nameLength)) with
    | (_, file, Name) =>
    match ReadFromFile_Time file ⟨0, 0⟩ with
    | (false, file, Time) =>
      some (false, file, DirTree.node Name Time 0 0 0 ⟨0, []⟩ .null .null .null)
    | (true, file, Time) =>
    match ReadFromFile_u32 file 0 with
    | (false, file, AttributeFlags) =>
      some (false, file, DirTree.node Name Time AttributeFlags 0 0 ⟨0, []⟩ .null .null .null)
    | (true, file, AttributeFlags) =>
    match ReadFromFile_u32 file 0 with
    | (false, file, Size) =>
      some (false, file, DirTree.node Name Time AttributeFlags Size 0 ⟨0, []⟩ .null .null .null)
    | (true, file, Size) =>
    match ReadFromFile_u32 file 0 with
    | (false, file, Offset) =>
      some (false, file,
        DirTree.node Name Time AttributeFlags Size Offset ⟨0, []⟩ .null .null .null)
    | (true, file, Offset) =>
    match ReadFromFile_u32 file 0 with
    | (false, file, HintDataLength) =>
      some (false, file,
        DirTree.node Name Time AttributeFlags Size Offset ⟨HintDataLength, []⟩ .null .null .null)
    | (true, file, HintDataLength) =>
    match ReadStringFromFile file [] (toInt32 HintDataLength) with
    | (_, file, HintData) =>
    match ReadTreeFuel fuel (fun p => stale (false :: p)) file with
    | none => none
    | some (false, file, Children) =>
      some (false, file,
        DirTree.node Name Time AttributeFlags Size Offset ⟨HintDataLength, HintData⟩
          .null Children .null)
    | some (true, file, Children) =>
    match ReadTreeFuel fuel (fun p => stale (true :: p)) file with
    | none => none
    | some (ok, file, Siblings) =>
      some (ok, file,
        DirTree.node Name Time AttributeFlags Size Offset ⟨HintDataLength, HintData⟩
          .null Children Siblings)

/-- The decoder `ReadTree` with a nesting bound that is never hit (`ReadTree_isSome`): an activation only
calls itself after 32 bytes were extracted from a good stream. -/
def ReadTree (stale : List Bool → Locals) (file : ifstream) :
    Option (Bool × ifstream × DirTree) :=
  ReadTreeFuel (file.rest.length / 32 + 1) stale file

/-- The function `std::vector<std::string> GetNames(const DirTree*)`. -/
def GetNames : DirTree → List (List Byte)
  | .null => []
  | .node Name _ _ _ _ _ _ Children Siblings =>
    let names := [Name]
    let names := if Children ≠ .null then names ++ GetNames Children else names
    let names := if Siblings ≠ .null then names ++ GetNames Siblings else names
    names

/-! ## The record layout of the directory block -/

/-- One field of the directory-entry record of the format description. -/
inductive Field where
  | slotProbe (v : Nat)
  | nameLength (v : Nat)
  | name (b : List Byte)
  | time1 (v : Nat)
  | time2 (v : Nat)
  | attributeFlags (v : Nat)
  | size (v : Nat)
  | offset (v : Nat)
  | hintLength (v : Nat)
  | hint (b : List Byte)
deriving DecidableEq

/-- Bytes of one field: the 32-bit fields are four bytes, name and hint are verbatim. -/
def Field.bytes : Field → List Byte
  | .slotProbe v => toBytes 4 v
  | .nameLength v => toBytes 4 v
  | .name b => b
  | .time1 v => toBytes 4 v
  | .time2 v => toBytes 4 v
  | .attributeFlags v => toBytes 4 v
  | .size v => toBytes 4 v
  | .offset v => toBytes 4 v
  | .hintLength v => toBytes 4 v
  | .hint b => b

/-- The name carried by a field, if it is a name field. -/
def Field.name? : Field → Option (List Byte)
  | .name b => some b
  | _ => none

/-- Bytes of a sequence of fields, in order. -/
def fieldBytes : List Field → List Byte
  | [] => []
  | f :: fs => f.bytes ++ fieldBytes fs

/-- Record layout of a tree as the format description gives it (the source has no encoder; this
is the layout the round-trip and name-order properties are stated against): an absent slot is
the sentinel;
a node is a probe, the name length, the name, `time1`, `time2`, `attributeFlags`, `size`,
`offset`, `hintLength`, the hint, then the children slot and the siblings slot.  The node does
not store its probe: `probe` chooses it, `probe []` for this slot, `probe (false :: p)` below the
children slot and `probe (true :: p)` below the siblings slot. -/
def layout (probe : List Bool → Nat) : DirTree → List Field
  | .null => [.slotProbe DIRTREE_LIST_TERMINATED]
  | .node Name Time AttributeFlags Size Offset Hints _ Children Siblings =>
    [.slotProbe (probe []), .nameLength Name.length, .name Name,
     .time1 Time.Time1, .time2 Time.Time2, .attributeFlags AttributeFlags,
     .size Size, .offset Offset, .hintLength Hints.HintDataLength, .hint Hints.HintData]
    ++ layout (fun p => probe (false :: p)) Children
    ++ layout (fun p => probe (true :: p)) Siblings

/-- The encoder of the format description: the bytes of the layout. -/
def encode (probe : List Bool → Nat) (t : DirTree) : List Byte :=
  fieldBytes (layout probe t)

/-- Trees the round trip is stated for: every name has between 1 and `2^31 - 1` bytes, every
hint has as many bytes as its stored `HintDataLength`, at most `2^31 - 1`, every `Parent` is
absent, and the 32-bit fields hold 32-bit values. -/
def DirTree.Valid : DirTree → Prop
  | .null => True
  | .node Name Time AttributeFlags Size Offset Hints Parent Children Siblings =>
    1 ≤ Name.length ∧ Name.length ≤ 2147483647 ∧
    Hints.HintData.length = Hints.HintDataLength ∧ Hints.HintDataLength ≤ 2147483647 ∧
    Parent = .null ∧
    Time.Time1 < 4294967296 ∧ Time.Time2 < 4294967296 ∧ AttributeFlags < 4294967296 ∧
    Size < 4294967296 ∧ Offset < 4294967296 ∧
    Children.Valid ∧ Siblings.Valid

/-- Nesting of `ReadTree` activations that materialise the nodes of a tree. -/
def DirTree.depth : DirTree → Nat
  | .null => 0
  | .node _ _ _ _ _ _ _ Children Siblings => 1 + max Children.depth Siblings.depth

/-- Number of name bytes a declared 32-bit name length calls for: the length itself when it is
positive as an `int32_t`, none otherwise. -/
def declaredBytes (v : Nat) : Nat := (toInt32 v).toNat

/-! ## Concrete inputs -/

/-- Probe value 0 in every occupied slot. -/
def probe0 : List Bool → Nat := fun _ => 0

/-- Uninitialised locals that happen to hold 0. -/
def stale0 : List Bool → Locals := fun _ => ⟨0, 0⟩

/-- Uninitialised `terminator` locals that happen to hold the pattern `0xFFFFFFFF`. -/
def staleSentinel : List Bool → Locals := fun _ => ⟨DIRTREE_LIST_TERMINATED, 0⟩

/-- Root "A" with one child "B" (carrying a two-byte hint) and one sibling "C". -/
def treeABC : DirTree :=
  .node [65] ⟨1, 2⟩ 2 0 0 ⟨0, []⟩ .null
    (.node [66] ⟨3, 4⟩ 0 10 100 ⟨2, [7, 8]⟩ .null .null .null)
    (.node [67] ⟨5, 6⟩ 1 20 110 ⟨0, []⟩ .null .null .null)

/-- The leaf "A.txt" with the given fixed-width fields, no hint, no children, no siblings. -/
def leafAtxt (time1 time2 flags size offset : Nat) : DirTree :=
  .node [65, 46, 116, 120, 116] ⟨time1, time2⟩ flags size offset ⟨0, []⟩ .null .null .null

/-- The leaf stream as the scenario writes it:
`[4][A.txt][time1][time2][flags][size][offset][hintLen=0][FFFFFFFF][FFFFFFFF]`, one 32-bit value 4
directly followed by the five name bytes. -/
def leafStreamAsWritten (time1 time2 flags size offset : Nat) : List Byte :=
  toBytes 4 4 ++ ([65, 46, 116, 120, 116] ++ (toBytes 4 time1 ++ (toBytes 4 time2 ++
    (toBytes 4 flags ++ (toBytes 4 size ++ (toBytes 4 offset ++ (toBytes 4 0 ++
    (toBytes 4 DIRTREE_LIST_TERMINATED ++ toBytes 4 DIRTREE_LIST_TERMINATED))))))))

/-- The leaf stream with the name length field the decoder reads after the probe:
`[4][5][A.txt][time1][time2][flags][size][offset][hintLen=0][FFFFFFFF][FFFFFFFF]`. -/
def leafStream (time1 time2 flags size offset : Nat) : List Byte :=
  toBytes 4 4 ++ (toBytes 4 5 ++ ([65, 46, 116, 120, 116] ++ (toBytes 4 time1 ++
    (toBytes 4 time2 ++ (toBytes 4 flags ++ (toBytes 4 size ++ (toBytes 4 offset ++
    (toBytes 4 0 ++
    (toBytes 4 DIRTREE_LIST_TERMINATED ++ toBytes 4 DIRTREE_LIST_TERMINATED)))))))))

/-- Probe 0, name length 0, the six fixed-width fields 1, 2, 3, 4, 5 and hint length 0, then two
empty slots. -/
def zeroNameStream : List Byte :=
  [0, 0, 0, 0,  0, 0, 0, 0,  1, 0, 0, 0,  2, 0, 0, 0,  3, 0, 0, 0,  4, 0, 0, 0,  5, 0, 0, 0,
   0, 0, 0, 0,  255, 255, 255, 255,  255, 255, 255, 255]

/-- As `zeroNameStream` with name length `-1`. -/
def negativeNameStream : List Byte :=
  [0, 0, 0, 0,  255, 255, 255, 255,  1, 0, 0, 0,  2, 0, 0, 0,  3, 0, 0, 0,  4, 0, 0, 0,
   5, 0, 0, 0,  0, 0, 0, 0,  255, 255, 255, 255,  255, 255, 255, 255]

/-- Probe 0, name "A", `time1 = 7`, then only two of the four bytes of `time2`. -/
def truncatedTimeStream : List Byte :=
  [0, 0, 0, 0,  1, 0, 0, 0,  65,  7, 0, 0, 0,  1, 2]

/-- Probe 0, name "A", fixed-width fields 1, 2, 3, 4, 5, hint length 4, then only two hint
bytes. -/
def truncatedHintStream : List Byte :=
  [0, 0, 0, 0,  1, 0, 0, 0,  65,  1, 0, 0, 0,  2, 0, 0, 0,  3, 0, 0, 0,  4, 0, 0, 0,
   5, 0, 0, 0,  4, 0, 0, 0,  9, 8]

/-- Probe 0, name "A", fixed-width fields 1, 2, 3, 4, 5, hint length `0x80000000` (negative as
`int32_t`), then two empty slots. -/
def negativeHintStream : List Byte :=
  [0, 0, 0, 0,  1, 0, 0, 0,  65,  1, 0, 0, 0,  2, 0, 0, 0,  3, 0, 0, 0,  4, 0, 0, 0,
   5, 0, 0, 0,  0, 0, 0, 128,  255, 255, 255, 255,  255, 255, 255, 255]

/-- The bytes of an entry that stops five bytes into its fixed-width fields: probe 0, name
"C". -/
def truncatedEntry : List Byte :=
  [0, 0, 0, 0,  1, 0, 0, 0,  67,  1, 2, 3, 4, 5]

/-- Root "A", whose child "B" is complete and has no children, and whose child's sibling is
`truncatedEntry`. -/
def nestedFailureStream : List Byte :=
  [0, 0, 0, 0,  1, 0, 0, 0,  65,  0, 0, 0, 0,  0, 0, 0, 0,  0, 0, 0, 0,  0, 0, 0, 0,
   0, 0, 0, 0,  0, 0, 0, 0,
   0, 0, 0, 0,  1, 0, 0, 0,  66,  0, 0, 0, 0,  0, 0, 0, 0,  0, 0, 0, 0,  0, 0, 0, 0,
   0, 0, 0, 0,  0, 0, 0, 0,
   255, 255, 255, 255] ++ truncatedEntry

/-- What follows the probe in the stream of the leaf "A.txt" with fields 1, 2, 3, 4, 5. -/
def leafAfterProbe : List Byte :=
  [5, 0, 0, 0,  65, 46, 116, 120, 116,  1, 0, 0, 0,  2, 0, 0, 0,  3, 0, 0, 0,  4, 0, 0, 0,
   5, 0, 0, 0,  0, 0, 0, 0,  255, 255, 255, 255,  255, 255, 255, 255]

/-! ## The activation in stages -/

/-- The members of `struct DirTree` that `ReadTree` fills from the stream before it calls
itself: all but the three pointers. -/
structure NodeFields where
  Name : List Byte
  Time : geVFile_Time
  AttributeFlags : Nat
  Size : Nat
  Offset : Nat
  Hints : geVFile_Hints
deriving DecidableEq

/-- The node with these members, an absent `Parent` and the given `Children` and `Siblings`. -/
def NodeFields.node (e : NodeFields) (Children Siblings : DirTree) : DirTree :=
  DirTree.node e.Name e.Time e.AttributeFlags e.Size e.Offset e.Hints .null Children Siblings

/-- Lines 85 to 101 of `ReadTree`, between the allocation of the node and the first recursive
call: the name length (an uninitialised local, `nameLengthStale` before the unchecked read), the
name, the five checked fixed-width reads and the hint.  The `bool` is `false` when one of the
checked reads failed, which is where `ReadTree` returns `false` without recursing.
`ReadTreeFuel_succ_eq` shows that `ReadTreeFuel` is this followed by the two recursive calls. -/
def ReadTreeFields (nameLengthStale : Nat) (file : ifstream) : Bool × ifstream × NodeFields :=
  match file.read (toBytes 4 nameLengthStale) 4 with
  | (file, nameLength) =>
  match ReadStringFromFile file [] (toInt32 (fromBytes nameLength)) with
  | (_, file, Name) =>
  match ReadFromFile_Time file ⟨0, 0⟩ with
  | (false, file, Time) => (false, file, ⟨Name, Time, 0, 0, 0, ⟨0, []⟩⟩)
  | (true, file, Time) =>
  match ReadFromFile_u32 file 0 with
  | (false, file, AttributeFlags) => (false, file, ⟨Name, Time, AttributeFlags, 0, 0, ⟨0, []⟩⟩)
  | (true, file, AttributeFlags) =>
  match ReadFromFile_u32 file 0 with
  | (false, file, Size) => (false, file, ⟨Name, Time, AttributeFlags, Size, 0, ⟨0, []⟩⟩)
  | (true, file, Size) =>
  match ReadFromFile_u32 file 0 with
  | (false, file, Offset) => (false, file, ⟨Name, Time, AttributeFlags, Size, Offset, ⟨0, []⟩⟩)
  | (true, file, Offset) =>
  match ReadFromFile_u32 file 0 with
  | (false, file, HintDataLength) =>
    (false, file, ⟨Name, Time, AttributeFlags, Size, Offset, ⟨HintDataLength, []⟩⟩)
  | (true, file, HintDataLength) =>
  match ReadStringFromFile file [] (toInt32 HintDataLength) with
  | (_, file, HintData) =>
    (true, file, ⟨Name, Time, AttributeFlags, Size, Offset, ⟨HintDataLength, HintData⟩⟩)

/-- The recursive call an activation of `ReadTree` makes for its children slot (`sibling = false`,
line 104) or for its siblings slot (`sibling = true`, line 109): the locals and the stream the
nested activation starts with, or `none` when the activation does not get that far (the slot it
decodes is empty, a checked read failed, or, for the siblings slot, the children call returned
`false`). -/
def slotCall (stale : List Bool → Locals) (file : ifstream) (sibling : Bool) :
    Option ((List Bool → Locals) × ifstream) :=
  match file.read (toBytes 4 (stale []).terminator) 4 with
  | (file, terminator) =>
  if fromBytes terminator = DIRTREE_LIST_TERMINATED then none
  else
  match ReadTreeFields (stale []).nameLength file with
  | (false, _, _) => none
  | (true, file, _) =>
  if sibling = false then some (fun p => stale (false :: p), file)
  else
  match ReadTree (fun p => stale (false :: p)) file with
  | some (true, file, _) => some (fun p => stale (true :: p), file)
  | _ => none

/-- The activation reached from a root activation by following a path of slots (`false` the
children slot, `true` the siblings slot), if the decoding gets there. -/
def callAt (stale : List Bool → Locals) (file : ifstream) :
    List Bool → Option ((List Bool → Locals) × ifstream)
  | [] => some (stale, file)
  | sibling :: path =>
    match slotCall stale file sibling with
    | none => none
    | some (stale1, file1) => callAt stale1 file1 path

/-! ## Measures of a tree -/

/-- No node of the tree has its `Parent` pointer set. -/
def DirTree.ParentAbsent : DirTree → Prop
  | .null => True
  | .node _ _ _ _ _ _ Parent Children Siblings =>
    Parent = .null ∧ Children.ParentAbsent ∧ Siblings.ParentAbsent

/-- Number of nodes reachable through `Children` and `Siblings`. -/
def DirTree.size : DirTree → Nat
  | .null => 0
  | .node _ _ _ _ _ _ _ Children Siblings => 1 + Children.size + Siblings.size

/-- Sum over the nodes of a tree of 36 plus the length of the stored `Name` plus the length of
the stored `HintData`. -/
def DirTree.contentBytes : DirTree → Nat
  | .null => 0
  | .node Name _ _ _ _ Hints _ Children Siblings =>
    36 + Name.length + Hints.HintData.length + Children.contentBytes + Siblings.contentBytes

/-- Nesting of destructor calls when a `std::unique_ptr<DirTree>` is released: `struct DirTree`
declares no destructor, so the implicit one releases the three `unique_ptr` members, each of
which destroys the node it owns from within the destructor of its owner. -/
def DirTree.destroyDepth : DirTree → Nat
  | .null => 0
  | .node _ _ _ _ _ _ Parent Children Siblings =>
    1 + max Siblings.destroyDepth (max Children.destroyDepth Parent.destroyDepth)

/-- Right-leaning sibling chain of `n` entries named "A", without children. -/
def siblingChain : Nat → DirTree
  | 0 => .null
  | n + 1 => .node [65] ⟨0, 0⟩ 0 0 0 ⟨0, []⟩ .null .null (siblingChain n)

/-! ## Object representations and `read` -/

theorem toBytes_length (n v : Nat) : (toBytes n v).length = n := by
  induction n generalizing v with
  | zero => rfl
  | succ n ih => simp [toBytes, ih]

theorem fromBytes_toBytes4 (v : Nat) : fromBytes (toBytes 4 v) = v % 4294967296 := by
  simp only [toBytes, fromBytes]
  omega

theorem fromBytes_toBytes4_of_lt (v : Nat) (h : v < 4294967296) :
    fromBytes (toBytes 4 v) = v := by
  rw [fromBytes_toBytes4, Nat.mod_eq_of_lt h]

theorem fromBytes_lt (b : List Byte) (h : b.length = 4) : fromBytes b < 4294967296 := by
  match b, h with
  | [b0, b1, b2, b3], _ =>
    simp only [fromBytes]
    omega

/-- Four bytes are the object representation of the value they hold. -/
theorem toBytes_fromBytes (b : List Byte) (h : b.length = 4) : toBytes 4 (fromBytes b) = b := by
  match b, h with
  | [b0, b1, b2, b3], _ =>
    simp only [fromBytes, toBytes]
    have h0 := b0.isLt
    have h1 := b1.isLt
    have h2 := b2.isLt
    have h3 := b3.isLt
    congr 1
    · apply Fin.ext; simp only []; omega
    congr 1
    · apply Fin.ext; simp only []; omega
    congr 1
    · apply Fin.ext; simp only []; omega
    congr 1
    · apply Fin.ext; simp only []; omega

/-- Reading exactly the front of a good stream. -/
theorem read_front (pre rest buf : List Byte) (n : Nat) (hn : pre.length = n)
    (hb : buf.length ≤ n) :
    (ifstream.mk (pre ++ rest) true).read buf n = (⟨rest, true⟩, pre) := by
  subst hn
  simp [ifstream.read, List.drop_eq_nil_of_le hb]

/-- Nothing is extracted from a stream that is not good. -/
theorem read_not_good (r buf : List Byte) (n : Nat) :
    (ifstream.mk r false).read buf n = (⟨r, false⟩, buf) := by
  simp [ifstream.read]

/-- Reading a 32-bit object whose bytes are at the front of a good stream. -/
theorem read4_toBytes (v w : Nat) (rest : List Byte) :
    (ifstream.mk (toBytes 4 v ++ rest) true).read (toBytes 4 w) 4
      = (⟨rest, true⟩, toBytes 4 v) :=
  read_front _ _ _ 4 (toBytes_length 4 v) (by rw [toBytes_length])

theorem ReadFromFile_u32_front (v d : Nat) (rest : List Byte) :
    ReadFromFile_u32 ⟨toBytes 4 v ++ rest, true⟩ d = (true, ⟨rest, true⟩, v % 4294967296) := by
  simp only [ReadFromFile_u32, ReadFromFile, toBytes_length, read4_toBytes, fromBytes_toBytes4]

theorem ReadFromFile_Time_front (t1 t2 : Nat) (d : geVFile_Time) (rest : List Byte) :
    ReadFromFile_Time ⟨toBytes 4 t1 ++ (toBytes 4 t2 ++ rest), true⟩ d
      = (true, ⟨rest, true⟩, ⟨t1 % 4294967296, t2 % 4294967296⟩) := by
  have h := read_front (toBytes 4 t1 ++ toBytes 4 t2) rest
    (toBytes 4 d.Time1 ++ toBytes 4 d.Time2) 8 (by simp [toBytes_length])
    (by simp [toBytes_length])
  rw [List.append_assoc] at h
  simp only [ReadFromFile_Time, ReadFromFile, List.length_append, toBytes_length, h]
  have e1 : List.take 4 (toBytes 4 t1 ++ toBytes 4 t2) = toBytes 4 t1 := by
    rw [List.take_append_of_le_length (by rw [toBytes_length])]
    exact List.take_of_length_le (by rw [toBytes_length])
  have e2 : List.drop 4 (toBytes 4 t1 ++ toBytes 4 t2) = toBytes 4 t2 := by
    have := List.drop_left (toBytes 4 t1) (toBytes 4 t2)
    rwa [toBytes_length] at this
  rw [e1, e2, fromBytes_toBytes4, fromBytes_toBytes4]

theorem toInt32_of_lt (v : Nat) (h : v < 2147483648) : toInt32 v = (v : Int) := by
  have h1 : v % 4294967296 = v := Nat.mod_eq_of_lt (by omega)
  simp [toInt32, h1, h]

/-- A string of positive declared length whose bytes are at the front of a good stream. -/
theorem ReadStringFromFile_front (s rest out : List Byte) (h0 : 0 < s.length)
    (h1 : s.length < 2147483648) :
    ReadStringFromFile ⟨s ++ rest, true⟩ out (toInt32 s.length) = (true, ⟨rest, true⟩, s) := by
  have hpos : ¬ ((s.length : Int) ≤ 0) := by omega
  have hr := read_front s rest (resize out s.length) s.length rfl
    (by simp [resize]; omega)
  simp only [ReadStringFromFile, toInt32_of_lt _ h1, hpos, if_false, Int.toNat_ofNat, hr]

/-- A declared length of zero: nothing is read and `false` is returned. -/
theorem ReadStringFromFile_zero (file : ifstream) (out : List Byte) :
    ReadStringFromFile file out (toInt32 0) = (false, file, out) := by
  simp [ReadStringFromFile, toInt32]

/-- A declared length that is not positive: nothing is read and `false` is returned. -/
theorem ReadStringFromFile_nonpos (file : ifstream) (out : List Byte) (n : Int) (h : n ≤ 0) :
    ReadStringFromFile file out n = (false, file, out) := by
  simp [ReadStringFromFile, h]

/-! ## The layout and the decoder -/

theorem fieldBytes_append (a b : List Field) :
    fieldBytes (a ++ b) = fieldBytes a ++ fieldBytes b := by
  induction a with
  | nil => rfl
  | cons f fs ih => simp [fieldBytes, ih]

theorem encode_null (probe : List Bool → Nat) :
    encode probe DirTree.null = toBytes 4 DIRTREE_LIST_TERMINATED := by
  simp [encode, layout, fieldBytes, Field.bytes]

theorem encode_node (probe : List Bool → Nat) (Name : List Byte) (Time : geVFile_Time)
    (AttributeFlags Size Offset : Nat) (Hints : geVFile_Hints)
    (Parent Children Siblings : DirTree) :
    encode probe (DirTree.node Name Time AttributeFlags Size Offset Hints Parent Children Siblings)
      = toBytes 4 (probe []) ++ (toBytes 4 Name.length ++ (Name ++ (toBytes 4 Time.Time1 ++
        (toBytes 4 Time.Time2 ++ (toBytes 4 AttributeFlags ++ (toBytes 4 Size ++
        (toBytes 4 Offset ++ (toBytes 4 Hints.HintDataLength ++ (Hints.HintData ++
        (encode (fun p => probe (false :: p)) Children ++
         encode (fun p => probe (true :: p)) Siblings)))))))))) := by
  simp [encode, layout, fieldBytes, Field.bytes, fieldBytes_append]

/-- Decoding the layout of a valid tree gives the tree back and stops right after it, as soon as
the nesting bound exceeds the depth of the tree. -/
theorem ReadTreeFuel_encode (t : DirTree) :
    ∀ (probe : List Bool → Nat) (stale : List Bool → Locals) (rest : List Byte) (fuel : Nat),
      t.Valid → (∀ p, probe p % 4294967296 ≠ DIRTREE_LIST_TERMINATED) → t.depth < fuel →
      ReadTreeFuel fuel stale ⟨encode probe t ++ rest, true⟩ = some (true, ⟨rest, true⟩, t) := by
  induction t with
  | null =>
    intro probe stale rest fuel _ _ hf
    obtain ⟨k, rfl⟩ : ∃ k, fuel = k + 1 := ⟨fuel - 1, by simp [DirTree.depth] at hf; omega⟩
    simp only [ReadTreeFuel, encode_null, read4_toBytes, fromBytes_toBytes4]
    rfl
  | node Name Time AttributeFlags Size Offset Hints Parent Children Siblings _ ihC ihS =>
    intro probe stale rest fuel hv hp hf
    obtain ⟨k, rfl⟩ : ∃ k, fuel = k + 1 := ⟨fuel - 1, by simp [DirTree.depth] at hf; omega⟩
    obtain ⟨hn1, hn2, hh1, hh2, hpar, ht1, ht2, ha, hs, ho, hvc, hvs⟩ := hv
    subst hpar
    have hdc : Children.depth < k := by simp [DirTree.depth] at hf; omega
    have hds : Siblings.depth < k := by simp [DirTree.depth] at hf; omega
    have hC := ihC (fun p => probe (false :: p)) (fun p => stale (false :: p))
      (encode (fun p => probe (true :: p)) Siblings ++ rest) k hvc (fun p => hp _) hdc
    have hS := ihS (fun p => probe (true :: p)) (fun p => stale (true :: p)) rest k hvs
      (fun p => hp _) hds
    have hname := fun r o => ReadStringFromFile_front Name r o (by omega) (by omega)
    have hhint : ∀ r, ReadStringFromFile ⟨Hints.HintData ++ r, true⟩ []
        (toInt32 Hints.HintDataLength)
          = (decide (Hints.HintDataLength ≠ 0), ⟨r, true⟩, Hints.HintData) := by
      intro r
      by_cases h0 : Hints.HintDataLength = 0
      · have hnil : Hints.HintData = [] := List.length_eq_zero.mp (by omega)
        simp [h0, hnil, ReadStringFromFile_zero]
      · have := ReadStringFromFile_front Hints.HintData r [] (by omega) (by omega)
        rw [hh1] at this
        simp [this, h0]
    have m0 : Name.length % 4294967296 = Name.length := Nat.mod_eq_of_lt (by omega)
    have m1 := Nat.mod_eq_of_lt ht1
    have m2 := Nat.mod_eq_of_lt ht2
    have m3 := Nat.mod_eq_of_lt ha
    have m4 := Nat.mod_eq_of_lt hs
    have m5 := Nat.mod_eq_of_lt ho
    have m6 : Hints.HintDataLength % 4294967296 = Hints.HintDataLength :=
      Nat.mod_eq_of_lt (by omega)
    simp only [ReadTreeFuel, encode_node, List.append_assoc, read4_toBytes, fromBytes_toBytes4,
      hp [], if_false, m0, hname, ReadFromFile_Time_front, ReadFromFile_u32_front,
      m1, m2, m3, m4, m5, m6, hhint, hC, hS]

/-- Every node of the layout takes at least 32 bytes. -/
theorem encode_length_depth (t : DirTree) :
    ∀ probe : List Bool → Nat, 32 * t.depth + 4 ≤ (encode probe t).length := by
  induction t with
  | null => intro probe; simp [encode_null, toBytes_length, DirTree.depth]
  | node Name Time AttributeFlags Size Offset Hints Parent Children Siblings _ ihC ihS =>
    intro probe
    have hC := ihC (fun p => probe (false :: p))
    have hS := ihS (fun p => probe (true :: p))
    simp only [encode_node, List.length_append, toBytes_length, DirTree.depth]
    omega

/-- The name fields of the layout, in stream order, are what `GetNames` enumerates. -/
theorem layout_names (t : DirTree) :
    ∀ probe : List Bool → Nat, (layout probe t).filterMap Field.name? = GetNames t := by
  induction t with
  | null => intro probe; rfl
  | node Name Time AttributeFlags Size Offset Hints Parent Children Siblings _ ihC ihS =>
    intro probe
    have hC := ihC (fun p => probe (false :: p))
    have hS := ihS (fun p => probe (true :: p))
    have hG : GetNames
        (DirTree.node Name Time AttributeFlags Size Offset Hints Parent Children Siblings)
        = [Name] ++ GetNames Children ++ GetNames Siblings := by
      cases Children <;> cases Siblings <;> simp [GetNames]
    rw [hG]
    simp [layout, List.filterMap_append, List.filterMap_cons, Field.name?, hC, hS]

/-- Round trip at the nesting bound `ReadTree` uses. -/
theorem ReadTree_encode (probe : List Bool → Nat) (stale : List Bool → Locals) (t : DirTree)
    (rest : List Byte) (hv : t.Valid)
    (hp : ∀ p, probe p % 4294967296 ≠ DIRTREE_LIST_TERMINATED) :
    ReadTree stale ⟨encode probe t ++ rest, true⟩ = some (true, ⟨rest, true⟩, t) := by
  apply ReadTreeFuel_encode t probe stale rest _ hv hp
  have := encode_length_depth t probe
  simp only [List.length_append]
  omega

/-! ## Failure of the fixed-width reads -/

theorem ReadFromFile_true (file f : ifstream) (data out : List Byte)
    (h : ReadFromFile file data = (true, f, out)) :
    file.good = true ∧ f.good = true ∧ f.rest.length + data.length = file.rest.length := by
  unfold ReadFromFile ifstream.read at h
  split at h
  · split at h
    · simp only [Prod.mk.injEq] at h
      obtain ⟨-, rfl, -⟩ := h
      simp_all
    · simp at h
  · simp at h

theorem ReadFromFile_u32_true (file f : ifstream) (d v : Nat)
    (h : ReadFromFile_u32 file d = (true, f, v)) :
    file.good = true ∧ f.good = true ∧ f.rest.length + 4 = file.rest.length := by
  unfold ReadFromFile_u32 at h
  have := ReadFromFile_true file f (toBytes 4 d) (ReadFromFile file (toBytes 4 d)).2.2
    (by simp only [Prod.mk.injEq] at h; obtain ⟨h1, h2, -⟩ := h; simp [← h1, ← h2])
  simpa [toBytes_length] using this

theorem ReadFromFile_Time_true (file f : ifstream) (d v : geVFile_Time)
    (h : ReadFromFile_Time file d = (true, f, v)) :
    file.good = true ∧ f.good = true ∧ f.rest.length + 8 = file.rest.length := by
  unfold ReadFromFile_Time at h
  have := ReadFromFile_true file f (toBytes 4 d.Time1 ++ toBytes 4 d.Time2)
    (ReadFromFile file (toBytes 4 d.Time1 ++ toBytes 4 d.Time2)).2.2
    (by simp only [Prod.mk.injEq] at h; obtain ⟨h1, h2, -⟩ := h; simp [← h1, ← h2])
  simpa [toBytes_length] using this

theorem ReadTreeFuel_short (k : Nat) (stale : List Bool → Locals) (file : ifstream)
    (hterm : fromBytes (file.read (toBytes 4 (stale []).terminator) 4).2
      ≠ DIRTREE_LIST_TERMINATED)
    (hshort : ∀ f3, f3 = (ReadStringFromFile
        ((file.read (toBytes 4 (stale []).terminator) 4).1.read
          (toBytes 4 (stale []).nameLength) 4).1 []
        (toInt32 (fromBytes ((file.read (toBytes 4 (stale []).terminator) 4).1.read
          (toBytes 4 (stale []).nameLength) 4).2))).2.1 →
      f3.good = false ∨ f3.rest.length < 24) :
    ∃ f t, ReadTreeFuel (k + 1) stale file = some (false, f, t) := by
  simp only [ReadTreeFuel, if_neg hterm]
  have hs := hshort _ rfl
  revert hs
  generalize (ReadStringFromFile
        ((file.read (toBytes 4 (stale []).terminator) 4).1.read
          (toBytes 4 (stale []).nameLength) 4).1 []
        (toInt32 (fromBytes ((file.read (toBytes 4 (stale []).terminator) 4).1.read
          (toBytes 4 (stale []).nameLength) 4).2))) = rn
  intro hs
  split
  · exact ⟨_, _, rfl⟩
  next f4 T h1 =>
  obtain ⟨g1, -, e1⟩ := ReadFromFile_Time_true rn.2.1 f4 ⟨0, 0⟩ T h1
  split
  · exact ⟨_, _, rfl⟩
  next f5 A h2 =>
  obtain ⟨-, -, e2⟩ := ReadFromFile_u32_true f4 f5 0 A h2
  split
  · exact ⟨_, _, rfl⟩
  next f6 S h3 =>
  obtain ⟨-, -, e3⟩ := ReadFromFile_u32_true f5 f6 0 S h3
  split
  · exact ⟨_, _, rfl⟩
  next f7 O h4 =>
  obtain ⟨-, -, e4⟩ := ReadFromFile_u32_true f6 f7 0 O h4
  split
  · exact ⟨_, _, rfl⟩
  next f8 H h5 =>
  obtain ⟨-, -, e5⟩ := ReadFromFile_u32_true f7 f8 0 H h5
  exfalso
  rcases hs with hs | hs
  · simp [g1] at hs
  · omega


theorem toInt32_mod (v : Nat) : toInt32 (v % 4294967296) = toInt32 v := by
  simp [toInt32]

theorem ReadStringFromFile_not_good (file : ifstream) (out : List Byte) (n : Int)
    (h : file.good = false) : (ReadStringFromFile file out n).2.1.good = false := by
  unfold ReadStringFromFile ifstream.read
  split
  · exact h
  · simp [h]

/-- After the name read, a stream that was shorter than name plus 24 bytes is either no longer
good or has fewer than 24 bytes left. -/
theorem ReadStringFromFile_short (tail out : List Byte) (n : Int)
    (h : tail.length < n.toNat + 24) :
    (ReadStringFromFile ⟨tail, true⟩ out n).2.1.good = false ∨
    (ReadStringFromFile ⟨tail, true⟩ out n).2.1.rest.length < 24 := by
  unfold ReadStringFromFile ifstream.read
  split
  · next hn =>
    right
    have : n.toNat = 0 := by omega
    simp only []
    omega
  · split
    · split
      · right
        simp only [List.length_drop]
        omega
      · left; rfl
    · left; rfl

/-- Truncation anywhere before the end of the hint-length field makes the activation fail. -/
theorem ReadTreeFuel_truncated (k : Nat) (stale : List Bool → Locals) (probe : Nat)
    (rest : List Byte) (hp : probe % 4294967296 ≠ DIRTREE_LIST_TERMINATED)
    (hshort : rest.length < 4 ∨
      ∃ nl tail, rest = toBytes 4 nl ++ tail ∧ tail.length < declaredBytes nl + 24) :
    ∃ f t, ReadTreeFuel (k + 1) stale ⟨toBytes 4 probe ++ rest, true⟩ = some (false, f, t) := by
  apply ReadTreeFuel_short
  · rw [read4_toBytes, fromBytes_toBytes4]
    exact hp
  · intro f3 hf3
    subst hf3
    rw [read4_toBytes]
    rcases hshort with h | ⟨nl, tail, rfl, h⟩
    · left
      apply ReadStringFromFile_not_good
      have h4 : ¬ 4 ≤ rest.length := by omega
      simp [ifstream.read, h4]
    · rw [read4_toBytes, fromBytes_toBytes4, toInt32_mod]
      exact ReadStringFromFile_short tail [] (toInt32 nl) h

theorem ReadTreeFuel_false_node (fuel : Nat) (stale : List Bool → Locals) (file f : ifstream)
    (t : DirTree) (h : ReadTreeFuel fuel stale file = some (false, f, t)) : t ≠ DirTree.null := by
  cases fuel with
  | zero => simp [ReadTreeFuel] at h
  | succ k =>
    simp only [ReadTreeFuel] at h
    repeat' split at h
    all_goals simp at h
    all_goals (obtain ⟨_, _, rfl⟩ := h; simp)

/-- A node with no hint bytes read and two empty slots: the name is either not read at all (its
declared length is not positive) or read in full; the hint length is not positive. -/
theorem ReadTreeFuel_leaf (k : Nat) (stale : List Bool → Locals)
    (probe nl t1 t2 a s o hl : Nat) (name rest : List Byte)
    (hp : probe % 4294967296 ≠ DIRTREE_LIST_TERMINATED)
    (hname : (toInt32 nl ≤ 0 ∧ name = []) ∨
      (0 < name.length ∧ name.length < 2147483648 ∧ nl = name.length))
    (hhint : toInt32 hl ≤ 0) :
    ReadTreeFuel (k + 2) stale ⟨toBytes 4 probe ++ (toBytes 4 nl ++ (name ++ (toBytes 4 t1 ++
      (toBytes 4 t2 ++ (toBytes 4 a ++ (toBytes 4 s ++ (toBytes 4 o ++ (toBytes 4 hl ++
      (toBytes 4 DIRTREE_LIST_TERMINATED ++ (toBytes 4 DIRTREE_LIST_TERMINATED ++ rest)))))))))),
      true⟩
    = some (true, ⟨rest, true⟩,
        .node name ⟨t1 % 4294967296, t2 % 4294967296⟩ (a % 4294967296) (s % 4294967296)
          (o % 4294967296) ⟨hl % 4294967296, []⟩ .null .null .null) := by
  have hs : DIRTREE_LIST_TERMINATED % 4294967296 = DIRTREE_LIST_TERMINATED := by decide
  have hn : ∀ r, ReadStringFromFile ⟨name ++ r, true⟩ [] (toInt32 nl)
      = (decide (0 < toInt32 nl), ⟨r, true⟩, name) := by
    intro r
    rcases hname with ⟨h, rfl⟩ | ⟨h0, h1, rfl⟩
    · have : ¬ (0 < toInt32 nl) := by omega
      simp [ReadStringFromFile_nonpos _ _ _ h, this]
    · have := ReadStringFromFile_front name r [] h0 h1
      have hpos : 0 < toInt32 name.length := by rw [toInt32_of_lt _ h1]; omega
      simp [this, hpos]
  simp only [ReadTreeFuel, read4_toBytes, fromBytes_toBytes4, hp, if_false, toInt32_mod, hn,
    ReadFromFile_Time_front, ReadFromFile_u32_front, ReadStringFromFile_nonpos _ _ _ hhint,
    hs, if_true]

/-- A positive declared name length that exceeds what is left of the stream: the name is resized
to the declared length, receives the bytes that are left, and the next fixed-width read fails. -/
theorem ReadTreeFuel_name_overrun (k : Nat) (stale : List Bool → Locals) (probe nl : Nat)
    (tail : List Byte) (hp : probe % 4294967296 ≠ DIRTREE_LIST_TERMINATED)
    (hlen : tail.length < (toInt32 nl).toNat) :
    ReadTreeFuel (k + 1) stale ⟨toBytes 4 probe ++ (toBytes 4 nl ++ tail), true⟩
    = some (false, ⟨[], false⟩,
        .node (tail ++ List.replicate ((toInt32 nl).toNat - tail.length) 0) ⟨0, 0⟩ 0 0 0 ⟨0, []⟩
          .null .null .null) := by
  have hpos : ¬ (toInt32 nl ≤ 0) := by omega
  have hle : ¬ ((toInt32 nl).toNat ≤ tail.length) := by omega
  have hn : ReadStringFromFile ⟨tail, true⟩ [] (toInt32 nl)
      = (false, ⟨[], false⟩, tail ++ List.replicate ((toInt32 nl).toNat - tail.length) 0) := by
    simp [ReadStringFromFile, ifstream.read, resize, hpos, hle]
  have ht : ReadFromFile_Time ⟨[], false⟩ ⟨0, 0⟩ = (false, ⟨[], false⟩, ⟨0, 0⟩) := by decide
  simp only [ReadTreeFuel, read4_toBytes, fromBytes_toBytes4, hp, if_false, toInt32_mod, hn, ht]

/-! ## Consumption and termination -/

theorem read_length_le (file : ifstream) (buf : List Byte) (n : Nat) :
    (file.read buf n).1.rest.length ≤ file.rest.length := by
  unfold ifstream.read
  split
  · split
    · simp
    · simp
  · simp

theorem read_good (file : ifstream) (buf : List Byte) (n : Nat)
    (h : (file.read buf n).1.good = true) :
    file.good = true ∧ (file.read buf n).1.rest.length + n = file.rest.length := by
  unfold ifstream.read at h ⊢
  split at h
  · split at h
    · next hg hn =>
      simp only [hg, hn, if_true, List.length_drop]
      exact ⟨trivial, by omega⟩
    · simp at h
  · simp at h

theorem ReadStringFromFile_length_le (file : ifstream) (out : List Byte) (n : Int) :
    (ReadStringFromFile file out n).2.1.rest.length ≤ file.rest.length := by
  unfold ReadStringFromFile
  split
  · exact Nat.le_refl _
  · exact read_length_le _ _ _

theorem ReadStringFromFile_good (file : ifstream) (out : List Byte) (n : Int)
    (h : (ReadStringFromFile file out n).2.1.good = true) : file.good = true := by
  cases hg : file.good with
  | true => rfl
  | false => rw [ReadStringFromFile_not_good file out n hg] at h; exact h

theorem ReadFromFile_le (file f : ifstream) (data out : List Byte) (b : Bool)
    (h : ReadFromFile file data = (b, f, out)) : f.rest.length ≤ file.rest.length := by
  unfold ReadFromFile at h
  simp only [Prod.mk.injEq] at h
  obtain ⟨-, rfl, -⟩ := h
  exact read_length_le _ _ _

theorem ReadFromFile_u32_le (file f : ifstream) (d v : Nat) (b : Bool)
    (h : ReadFromFile_u32 file d = (b, f, v)) : f.rest.length ≤ file.rest.length := by
  unfold ReadFromFile_u32 at h
  simp only [Prod.mk.injEq] at h
  obtain ⟨-, rfl, -⟩ := h
  exact ReadFromFile_le file _ (toBytes 4 d) _ _ rfl

theorem ReadFromFile_Time_le (file f : ifstream) (d v : geVFile_Time) (b : Bool)
    (h : ReadFromFile_Time file d = (b, f, v)) : f.rest.length ≤ file.rest.length := by
  unfold ReadFromFile_Time at h
  simp only [Prod.mk.injEq] at h
  obtain ⟨-, rfl, -⟩ := h
  exact ReadFromFile_le file _ (toBytes 4 d.Time1 ++ toBytes 4 d.Time2) _ _ rfl

/-- The probe, the name length and the name: the stream never grows, and if it is still good
afterwards the two 32-bit reads took their eight bytes. -/
theorem header_consumed (file : ifstream) (b1 b2 out : List Byte) (n : Int) :
    (ReadStringFromFile ((file.read b1 4).1.read b2 4).1 out n).2.1.rest.length
      ≤ file.rest.length ∧
    ((ReadStringFromFile ((file.read b1 4).1.read b2 4).1 out n).2.1.good = true →
      (ReadStringFromFile ((file.read b1 4).1.read b2 4).1 out n).2.1.rest.length + 8
        ≤ file.rest.length) := by
  have h1 := read_length_le file b1 4
  have h2 := read_length_le (file.read b1 4).1 b2 4
  have h3 := ReadStringFromFile_length_le ((file.read b1 4).1.read b2 4).1 out n
  refine ⟨by omega, fun hg => ?_⟩
  have g2 := ReadStringFromFile_good _ _ _ hg
  obtain ⟨g1, e2⟩ := read_good _ _ _ g2
  obtain ⟨-, e1⟩ := read_good _ _ _ g1
  omega

/-- An activation never puts bytes back. -/
theorem ReadTreeFuel_length_le (fuel : Nat) :
    ∀ (stale : List Bool → Locals) (file f : ifstream) (ok : Bool) (t : DirTree),
      ReadTreeFuel fuel stale file = some (ok, f, t) → f.rest.length ≤ file.rest.length := by
  induction fuel with
  | zero => intro stale file f ok t h; simp [ReadTreeFuel] at h
  | succ k ih =>
    intro stale file f ok t h
    simp only [ReadTreeFuel] at h
    have h0 := read_length_le file (toBytes 4 (stale []).terminator) 4
    have hc := (header_consumed file (toBytes 4 (stale []).terminator)
      (toBytes 4 (stale []).nameLength) []
      (toInt32 (fromBytes ((file.read (toBytes 4 (stale []).terminator) 4).1.read
          (toBytes 4 (stale []).nameLength) 4).2))).1
    split at h
    · simp only [Option.some.injEq, Prod.mk.injEq] at h
      obtain ⟨-, rfl, -⟩ := h
      exact h0
    · revert hc h
      generalize (ReadStringFromFile
        ((file.read (toBytes 4 (stale []).terminator) 4).1.read
          (toBytes 4 (stale []).nameLength) 4).1 []
        (toInt32 (fromBytes ((file.read (toBytes 4 (stale []).terminator) 4).1.read
          (toBytes 4 (stale []).nameLength) 4).2))) = rn
      intro hc h
      split at h
      · next f4 T h1 =>
        simp only [Option.some.injEq, Prod.mk.injEq] at h
        obtain ⟨-, rfl, -⟩ := h
        have := ReadFromFile_Time_le rn.2.1 f4 ⟨0, 0⟩ T false h1
        omega
      next f4 T h1 =>
      have l1 := ReadFromFile_Time_le rn.2.1 f4 ⟨0, 0⟩ T true h1
      split at h
      · next f5 A h2 =>
        simp only [Option.some.injEq, Prod.mk.injEq] at h
        obtain ⟨-, rfl, -⟩ := h
        have := ReadFromFile_u32_le f4 f5 0 A false h2
        omega
      next f5 A h2 =>
      have l2 := ReadFromFile_u32_le f4 f5 0 A true h2
      split at h
      · next f6 S h3 =>
        simp only [Option.some.injEq, Prod.mk.injEq] at h
        obtain ⟨-, rfl, -⟩ := h
        have := ReadFromFile_u32_le f5 f6 0 S false h3
        omega
      next f6 S h3 =>
      have l3 := ReadFromFile_u32_le f5 f6 0 S true h3
      split at h
      · next f7 O h4 =>
        simp only [Option.some.injEq, Prod.mk.injEq] at h
        obtain ⟨-, rfl, -⟩ := h
        have := ReadFromFile_u32_le f6 f7 0 O false h4
        omega
      next f7 O h4 =>
      have l4 := ReadFromFile_u32_le f6 f7 0 O true h4
      split at h
      · next f8 H h5 =>
        simp only [Option.some.injEq, Prod.mk.injEq] at h
        obtain ⟨-, rfl, -⟩ := h
        have := ReadFromFile_u32_le f7 f8 0 H false h5
        omega
      next f8 H h5 =>
      have l5 := ReadFromFile_u32_le f7 f8 0 H true h5
      have l6 := ReadStringFromFile_length_le f8 [] (toInt32 H)
      split at h
      · simp at h
      · next fc C hC =>
        simp only [Option.some.injEq, Prod.mk.injEq] at h
        obtain ⟨-, rfl, -⟩ := h
        have := ih (fun p => stale (false :: p)) (ReadStringFromFile f8 [] (toInt32 H)).2.1
          fc false C hC
        omega
      · next fc C hC =>
        have lc := ih (fun p => stale (false :: p)) (ReadStringFromFile f8 [] (toInt32 H)).2.1
          fc true C hC
        split at h
        · simp at h
        · next oks fs S hS =>
          simp only [Option.some.injEq, Prod.mk.injEq] at h
          obtain ⟨-, rfl, -⟩ := h
          have := ih (fun p => stale (true :: p)) fc fs oks S hS
          omega

/-- The nesting bound of `ReadTree` is never hit: an activation calls itself only after 32
bytes were extracted from a good stream. -/
theorem ReadTreeFuel_isSome (fuel : Nat) :
    ∀ (stale : List Bool → Locals) (file : ifstream),
      file.rest.length / 32 < fuel → (ReadTreeFuel fuel stale file).isSome = true := by
  induction fuel with
  | zero => intro stale file h; omega
  | succ k ih =>
    intro stale file hfuel
    simp only [ReadTreeFuel]
    have hc := (header_consumed file (toBytes 4 (stale []).terminator)
      (toBytes 4 (stale []).nameLength) []
      (toInt32 (fromBytes ((file.read (toBytes 4 (stale []).terminator) 4).1.read
          (toBytes 4 (stale []).nameLength) 4).2))).2
    split
    · rfl
    · revert hc
      generalize (ReadStringFromFile
        ((file.read (toBytes 4 (stale []).terminator) 4).1.read
          (toBytes 4 (stale []).nameLength) 4).1 []
        (toInt32 (fromBytes ((file.read (toBytes 4 (stale []).terminator) 4).1.read
          (toBytes 4 (stale []).nameLength) 4).2))) = rn
      intro hc
      split
      · rfl
      next f4 T h1 =>
      obtain ⟨g1, -, e1⟩ := ReadFromFile_Time_true rn.2.1 f4 ⟨0, 0⟩ T h1
      split
      · rfl
      next f5 A h2 =>
      obtain ⟨-, -, e2⟩ := ReadFromFile_u32_true f4 f5 0 A h2
      split
      · rfl
      next f6 S h3 =>
      obtain ⟨-, -, e3⟩ := ReadFromFile_u32_true f5 f6 0 S h3
      split
      · rfl
      next f7 O h4 =>
      obtain ⟨-, -, e4⟩ := ReadFromFile_u32_true f6 f7 0 O h4
      split
      · rfl
      next f8 H h5 =>
      obtain ⟨-, -, e5⟩ := ReadFromFile_u32_true f7 f8 0 H h5
      have l6 := ReadStringFromFile_length_le f8 [] (toInt32 H)
      have l0 := hc g1
      have hC := ih (fun p => stale (false :: p)) (ReadStringFromFile f8 [] (toInt32 H)).2.1
        (by omega)
      split
      · next hn => rw [hn] at hC; simp at hC
      · rfl
      · next fc C hc1 =>
        have lc := ReadTreeFuel_length_le k (fun p => stale (false :: p))
          (ReadStringFromFile f8 [] (toInt32 H)).2.1 fc true C hc1
        have hS := ih (fun p => stale (true :: p)) fc (by omega)
        split
        · next hn => rw [hn] at hS; simp at hS
        · rfl

/-- The decoder always returns: `ReadTree` is never `none`. -/
theorem ReadTree_isSome (stale : List Bool → Locals) (file : ifstream) :
    (ReadTree stale file).isSome = true :=
  ReadTreeFuel_isSome _ stale file (Nat.lt_succ_self _)

/-- A larger nesting bound does not change a result. -/
theorem ReadTreeFuel_mono (fuel : Nat) :
    ∀ (m : Nat) (stale : List Bool → Locals) (file : ifstream) (r : Bool × ifstream × DirTree),
      fuel ≤ m → ReadTreeFuel fuel stale file = some r → ReadTreeFuel m stale file = some r := by
  induction fuel with
  | zero => intro m stale file r _ h; simp [ReadTreeFuel] at h
  | succ k ih =>
    intro m stale file r hm h
    obtain ⟨j, rfl⟩ : ∃ j, m = j + 1 := ⟨m - 1, by omega⟩
    have hkj : k ≤ j := by omega
    simp only [ReadTreeFuel] at h ⊢
    split at h
    · next hterm => rw [if_pos hterm]; exact h
    next hterm =>
    rw [if_neg hterm]
    revert h
    generalize (ReadStringFromFile
      ((file.read (toBytes 4 (stale []).terminator) 4).1.read
        (toBytes 4 (stale []).nameLength) 4).1 []
      (toInt32 (fromBytes ((file.read (toBytes 4 (stale []).terminator) 4).1.read
        (toBytes 4 (stale []).nameLength) 4).2))) = rn
    intro h
    split at h
    · next f4 T h1 => exact h
    next f4 T h1 =>
    split at h
    · next f5 A h2 => exact h
    next f5 A h2 =>
    split at h
    · next f6 S h3 => exact h
    next f6 S h3 =>
    split at h
    · next f7 O h4 => exact h
    next f7 O h4 =>
    split at h
    · next f8 H h5 => exact h
    next f8 H h5 =>
    split at h
    · simp at h
    · next fc C hC =>
      have e := ih j (fun p => stale (false :: p)) (ReadStringFromFile f8 [] (toInt32 H)).2.1
        (false, fc, C) hkj hC
      simp only [e]
      exact h
    · next fc C hC =>
      have e := ih j (fun p => stale (false :: p)) (ReadStringFromFile f8 [] (toInt32 H)).2.1
        (true, fc, C) hkj hC
      simp only [e]
      split at h
      · simp at h
      · next oks fs S hS =>
        have e2 := ih j (fun p => stale (true :: p)) fc (oks, fs, S) hkj hS
        simp only [e2]
        exact h

/-- Any nesting bound that is large enough gives the result of `ReadTree`. -/
theorem ReadTreeFuel_eq_ReadTree (stale : List Bool → Locals) (file : ifstream) (fuel : Nat)
    (h : file.rest.length / 32 < fuel) : ReadTreeFuel fuel stale file = ReadTree stale file := by
  obtain ⟨r, hr⟩ := Option.isSome_iff_exists.mp (ReadTree_isSome stale file)
  rw [hr]
  exact ReadTreeFuel_mono _ fuel stale file r (by omega) hr

/-! ## The activation in stages: lemmas -/

/-- An activation is the probe, then the fields, then the two recursive calls. -/
theorem ReadTreeFuel_succ_eq (k : Nat) (stale : List Bool → Locals) (file : ifstream) :
    ReadTreeFuel (k + 1) stale file =
      match file.read (toBytes 4 (stale []).terminator) 4 with
      | (file, terminator) =>
      if fromBytes terminator = DIRTREE_LIST_TERMINATED then some (true, file, DirTree.null)
      else
      match ReadTreeFields (stale []).nameLength file with
      | (false, file, e) => some (false, file, e.node .null .null)
      | (true, file, e) =>
      match ReadTreeFuel k (fun p => stale (false :: p)) file with
      | none => none
      | some (false, file, Children) => some (false, file, e.node Children .null)
      | some (true, file, Children) =>
      match ReadTreeFuel k (fun p => stale (true :: p)) file with
      | none => none
      | some (ok, file, Siblings) => some (ok, file, e.node Children Siblings) := by
  simp only [ReadTreeFuel, ReadTreeFields]
  split
  · rfl
  · generalize (ReadStringFromFile
      ((file.read (toBytes 4 (stale []).terminator) 4).1.read
        (toBytes 4 (stale []).nameLength) 4).1 []
      (toInt32 (fromBytes ((file.read (toBytes 4 (stale []).terminator) 4).1.read
        (toBytes 4 (stale []).nameLength) 4).2))) = rn
    split
    · rfl
    split
    · rfl
    split
    · rfl
    split
    · rfl
    split
    · rfl
    rfl

/-- What a successful run of the fields stage went through. -/
theorem ReadTreeFields_true (nl : Nat) (f g : ifstream) (e : NodeFields)
    (h : ReadTreeFields nl f = (true, g, e)) :
    ∃ (f2 : ifstream) (lenBytes : List Byte) (bn : Bool) (f3 : ifstream) (Name : List Byte)
      (f4 : ifstream) (T : geVFile_Time) (f5 : ifstream) (A : Nat) (f6 : ifstream) (S : Nat)
      (f7 : ifstream) (O : Nat) (f8 : ifstream) (H : Nat) (bh : Bool) (HintData : List Byte),
      f.read (toBytes 4 nl) 4 = (f2, lenBytes) ∧
      ReadStringFromFile f2 [] (toInt32 (fromBytes lenBytes)) = (bn, f3, Name) ∧
      ReadFromFile_Time f3 ⟨0, 0⟩ = (true, f4, T) ∧
      ReadFromFile_u32 f4 0 = (true, f5, A) ∧
      ReadFromFile_u32 f5 0 = (true, f6, S) ∧
      ReadFromFile_u32 f6 0 = (true, f7, O) ∧
      ReadFromFile_u32 f7 0 = (true, f8, H) ∧
      ReadStringFromFile f8 [] (toInt32 H) = (bh, g, HintData) ∧
      e = ⟨Name, T, A, S, O, ⟨H, HintData⟩⟩ := by
  simp only [ReadTreeFields] at h
  split at h
  · simp at h
  next f4 T h1 =>
  split at h
  · simp at h
  next f5 A h2 =>
  split at h
  · simp at h
  next f6 S h3 =>
  split at h
  · simp at h
  next f7 O h4 =>
  split at h
  · simp at h
  next f8 H h5 =>
  simp only [Prod.mk.injEq, true_and] at h
  obtain ⟨hg, he⟩ := h
  exact ⟨_, _, _, _, _, f4, T, f5, A, f6, S, f7, O, f8, H, _, _, rfl, rfl, h1, h2, h3, h4, h5,
    Prod.ext rfl (Prod.ext hg rfl), he.symm⟩

theorem read_good_eq (file : ifstream) (buf : List Byte) (n : Nat)
    (h : (file.read buf n).1.good = true) :
    file.good = true ∧ n ≤ file.rest.length ∧ (file.read buf n).1.rest = file.rest.drop n := by
  unfold ifstream.read at h ⊢
  split at h
  · split at h
    · next hg hn => simp [hg, hn]
    · simp at h
  · simp at h

theorem ReadFromFile_true_rest (file f : ifstream) (data out : List Byte)
    (h : ReadFromFile file data = (true, f, out)) :
    file.good = true ∧ f.good = true ∧ data.length ≤ file.rest.length ∧
      f.rest = file.rest.drop data.length := by
  unfold ReadFromFile at h
  simp only [Prod.mk.injEq] at h
  obtain ⟨hg, rfl, -⟩ := h
  obtain ⟨h1, h2, h3⟩ := read_good_eq file data data.length hg
  exact ⟨h1, hg, h2, h3⟩

theorem ReadFromFile_u32_true_rest (file f : ifstream) (d v : Nat)
    (h : ReadFromFile_u32 file d = (true, f, v)) :
    file.good = true ∧ f.good = true ∧ 4 ≤ file.rest.length ∧ f.rest = file.rest.drop 4 := by
  unfold ReadFromFile_u32 at h
  have := ReadFromFile_true_rest file f (toBytes 4 d) (ReadFromFile file (toBytes 4 d)).2.2
    (by simp only [Prod.mk.injEq] at h; obtain ⟨h1, h2, -⟩ := h; simp [← h1, ← h2])
  simpa [toBytes_length] using this

theorem ReadFromFile_Time_true_rest (file f : ifstream) (d v : geVFile_Time)
    (h : ReadFromFile_Time file d = (true, f, v)) :
    file.good = true ∧ f.good = true ∧ 8 ≤ file.rest.length ∧ f.rest = file.rest.drop 8 := by
  unfold ReadFromFile_Time at h
  have := ReadFromFile_true_rest file f (toBytes 4 d.Time1 ++ toBytes 4 d.Time2)
    (ReadFromFile file (toBytes 4 d.Time1 ++ toBytes 4 d.Time2)).2.2
    (by simp only [Prod.mk.injEq] at h; obtain ⟨h1, h2, -⟩ := h; simp [← h1, ← h2])
  simpa [toBytes_length] using this

/-- A string read into an empty string that leaves the stream good took exactly as many bytes
as the string then holds. -/
theorem ReadStringFromFile_good_rest (file f : ifstream) (n : Int) (b : Bool) (s : List Byte)
    (h : ReadStringFromFile file [] n = (b, f, s)) (hg : f.good = true) :
    file.good = true ∧ s.length ≤ file.rest.length ∧ f.rest = file.rest.drop s.length := by
  unfold ReadStringFromFile at h
  split at h
  · simp only [Prod.mk.injEq] at h
    obtain ⟨-, rfl, rfl⟩ := h
    exact ⟨hg, Nat.zero_le _, rfl⟩
  · simp only [Prod.mk.injEq] at h
    obtain ⟨-, hf, hs⟩ := h
    rw [← hf] at hg ⊢
    obtain ⟨h1, h2, h3⟩ := read_good_eq file (resize [] n.toNat) n.toNat hg
    have hs2 : s = file.rest.take n.toNat := by
      rw [← hs]
      simp [ifstream.read, h1, h2, resize]
    have hl : s.length = n.toNat := by rw [hs2, List.length_take]; omega
    rw [hl]
    exact ⟨h1, h2, h3⟩

/-- The fields stage never puts bytes back. -/
theorem ReadTreeFields_length_le (nl : Nat) (f : ifstream) :
    (ReadTreeFields nl f).2.1.rest.length ≤ f.rest.length := by
  have h2 := read_length_le f (toBytes 4 nl) 4
  have h3 := ReadStringFromFile_length_le (f.read (toBytes 4 nl) 4).1 []
    (toInt32 (fromBytes (f.read (toBytes 4 nl) 4).2))
  simp only [ReadTreeFields]
  revert h3
  generalize (ReadStringFromFile (f.read (toBytes 4 nl) 4).1 []
    (toInt32 (fromBytes (f.read (toBytes 4 nl) 4).2))) = rn
  intro h3
  split
  · next f4 T h1 =>
    have := ReadFromFile_Time_le rn.2.1 f4 ⟨0, 0⟩ T false h1
    simp only []
    omega
  next f4 T h1 =>
  have l1 := ReadFromFile_Time_le rn.2.1 f4 ⟨0, 0⟩ T true h1
  split
  · next f5 A h2 =>
    have := ReadFromFile_u32_le f4 f5 0 A false h2
    simp only []
    omega
  next f5 A h2 =>
  have l2 := ReadFromFile_u32_le f4 f5 0 A true h2
  split
  · next f6 S h3 =>
    have := ReadFromFile_u32_le f5 f6 0 S false h3
    simp only []
    omega
  next f6 S h3 =>
  have l3 := ReadFromFile_u32_le f5 f6 0 S true h3
  split
  · next f7 O h4 =>
    have := ReadFromFile_u32_le f6 f7 0 O false h4
    simp only []
    omega
  next f7 O h4 =>
  have l4 := ReadFromFile_u32_le f6 f7 0 O true h4
  split
  · next f8 H h5 =>
    have := ReadFromFile_u32_le f7 f8 0 H false h5
    simp only []
    omega
  next f8 H h5 =>
  have l5 := ReadFromFile_u32_le f7 f8 0 H true h5
  have l6 := ReadStringFromFile_length_le f8 [] (toInt32 H)
  exact Nat.le_trans l6 (by omega)

/-- A successful fields stage read the name length and the 24 bytes of the fixed-width fields
from a good stream. -/
theorem ReadTreeFields_consumed (nl : Nat) (f g : ifstream) (e : NodeFields)
    (h : ReadTreeFields nl f = (true, g, e)) :
    f.good = true ∧ g.rest.length + 28 ≤ f.rest.length := by
  obtain ⟨f2, lenBytes, bn, f3, Name, f4, T, f5, A, f6, S, f7, O, f8, H, bh, HintData,
    r2, r3, r4, r5, r6, r7, r8, r9, -⟩ := ReadTreeFields_true nl f g e h
  obtain ⟨g3, -, e4⟩ := ReadFromFile_Time_true f3 f4 ⟨0, 0⟩ T r4
  obtain ⟨-, -, e5⟩ := ReadFromFile_u32_true f4 f5 0 A r5
  obtain ⟨-, -, e6⟩ := ReadFromFile_u32_true f5 f6 0 S r6
  obtain ⟨-, -, e7⟩ := ReadFromFile_u32_true f6 f7 0 O r7
  obtain ⟨-, -, e8⟩ := ReadFromFile_u32_true f7 f8 0 H r8
  have e9 := ReadStringFromFile_length_le f8 [] (toInt32 H)
  rw [r9] at e9
  have e3 := ReadStringFromFile_length_le f2 [] (toInt32 (fromBytes lenBytes))
  have g2 := ReadStringFromFile_good f2 [] (toInt32 (fromBytes lenBytes))
  rw [r3] at e3 g2
  have e2 := read_good f (toBytes 4 nl) 4
  rw [r2] at e2
  obtain ⟨g1, e2⟩ := e2 (g2 g3)
  simp only [] at e9 e3 e2
  exact ⟨g1, by omega⟩

/-- A successful fields stage that leaves the stream good took exactly the name length, the
stored name, the 24 bytes of the fixed-width fields and the stored hint. -/
theorem ReadTreeFields_exact (nl : Nat) (f g : ifstream) (e : NodeFields)
    (h : ReadTreeFields nl f = (true, g, e)) (hg : g.good = true) :
    f.good = true ∧ 28 + e.Name.length + e.Hints.HintData.length ≤ f.rest.length ∧
      g.rest = f.rest.drop (28 + e.Name.length + e.Hints.HintData.length) := by
  obtain ⟨f2, lenBytes, bn, f3, Name, f4, T, f5, A, f6, S, f7, O, f8, H, bh, HintData,
    r2, r3, r4, r5, r6, r7, r8, r9, rfl⟩ := ReadTreeFields_true nl f g e h
  obtain ⟨g3, -, l4, e4⟩ := ReadFromFile_Time_true_rest f3 f4 ⟨0, 0⟩ T r4
  obtain ⟨-, -, l5, e5⟩ := ReadFromFile_u32_true_rest f4 f5 0 A r5
  obtain ⟨-, -, l6, e6⟩ := ReadFromFile_u32_true_rest f5 f6 0 S r6
  obtain ⟨-, -, l7, e7⟩ := ReadFromFile_u32_true_rest f6 f7 0 O r7
  obtain ⟨-, -, l8, e8⟩ := ReadFromFile_u32_true_rest f7 f8 0 H r8
  obtain ⟨-, l9, e9⟩ := ReadStringFromFile_good_rest f8 g (toInt32 H) bh HintData r9 hg
  obtain ⟨g2, l3, e3⟩ := ReadStringFromFile_good_rest f2 f3 (toInt32 (fromBytes lenBytes)) bn
    Name r3 g3
  have e2 := read_good_eq f (toBytes 4 nl) 4
  rw [r2] at e2
  obtain ⟨g1, l2, e2⟩ := e2 g2
  simp only [] at e2
  have hl2 : f2.rest.length = f.rest.length - 4 := by rw [e2, List.length_drop]
  have hl3 : f3.rest.length = f2.rest.length - Name.length := by rw [e3, List.length_drop]
  have hl4 : f4.rest.length = f3.rest.length - 8 := by rw [e4, List.length_drop]
  have hl5 : f5.rest.length = f4.rest.length - 4 := by rw [e5, List.length_drop]
  have hl6 : f6.rest.length = f5.rest.length - 4 := by rw [e6, List.length_drop]
  have hl7 : f7.rest.length = f6.rest.length - 4 := by rw [e7, List.length_drop]
  have hl8 : f8.rest.length = f7.rest.length - 4 := by rw [e8, List.length_drop]
  refine ⟨g1, by simp only []; omega, ?_⟩
  rw [e9, e8, e7, e6, e5, e4, e3, e2]
  simp only [List.drop_drop]
  congr 1
  omega

/-- The four ways an activation returns. -/
theorem ReadTreeFuel_succ_cases (k : Nat) (stale : List Bool → Locals) (file : ifstream)
    (r : Bool × ifstream × DirTree) (h : ReadTreeFuel (k + 1) stale file = some r) :
    (fromBytes (file.read (toBytes 4 (stale []).terminator) 4).2 = DIRTREE_LIST_TERMINATED ∧
      r = (true, (file.read (toBytes 4 (stale []).terminator) 4).1, DirTree.null)) ∨
    (fromBytes (file.read (toBytes 4 (stale []).terminator) 4).2 ≠ DIRTREE_LIST_TERMINATED ∧
      ∃ g e, ReadTreeFields (stale []).nameLength
          (file.read (toBytes 4 (stale []).terminator) 4).1 = (false, g, e) ∧
        r = (false, g, e.node .null .null)) ∨
    (fromBytes (file.read (toBytes 4 (stale []).terminator) 4).2 ≠ DIRTREE_LIST_TERMINATED ∧
      ∃ g e fc C, ReadTreeFields (stale []).nameLength
          (file.read (toBytes 4 (stale []).terminator) 4).1 = (true, g, e) ∧
        ReadTreeFuel k (fun p => stale (false :: p)) g = some (false, fc, C) ∧
        r = (false, fc, e.node C .null)) ∨
    (fromBytes (file.read (toBytes 4 (stale []).terminator) 4).2 ≠ DIRTREE_LIST_TERMINATED ∧
      ∃ g e fc C ok fs S, ReadTreeFields (stale []).nameLength
          (file.read (toBytes 4 (stale []).terminator) 4).1 = (true, g, e) ∧
        ReadTreeFuel k (fun p => stale (false :: p)) g = some (true, fc, C) ∧
        ReadTreeFuel k (fun p => stale (true :: p)) fc = some (ok, fs, S) ∧
        r = (ok, fs, e.node C S)) := by
  simp only [ReadTreeFuel_succ_eq] at h
  split at h
  · next hs =>
    left
    simp only [Option.some.injEq] at h
    exact ⟨hs, h.symm⟩
  next hs =>
  right
  split at h
  · next g e he =>
    left
    simp only [Option.some.injEq] at h
    exact ⟨hs, g, e, he, h.symm⟩
  next g e he =>
  right
  split at h
  · simp at h
  · next fc C hC =>
    left
    simp only [Option.some.injEq] at h
    exact ⟨hs, g, e, fc, C, he, hC, h.symm⟩
  · next fc C hC =>
    right
    split at h
    · simp at h
    · next ok fs S hS =>
      simp only [Option.some.injEq] at h
      exact ⟨hs, g, e, fc, C, ok, fs, S, he, hC, hS, h.symm⟩

/-- The decoder never sets a `Parent` pointer. -/
theorem ReadTreeFuel_ParentAbsent (fuel : Nat) :
    ∀ (stale : List Bool → Locals) (file f : ifstream) (ok : Bool) (t : DirTree),
      ReadTreeFuel fuel stale file = some (ok, f, t) → t.ParentAbsent := by
  induction fuel with
  | zero => intro stale file f ok t h; simp [ReadTreeFuel] at h
  | succ k ih =>
    intro stale file f ok t h
    rcases ReadTreeFuel_succ_cases k stale file (ok, f, t) h with
      ⟨-, hr⟩ | ⟨-, g, e, -, hr⟩ | ⟨-, g, e, fc, C, -, hC, hr⟩ |
      ⟨-, g, e, fc, C, oks, fs, S, -, hC, hS, hr⟩
    · simp only [Prod.mk.injEq] at hr
      obtain ⟨-, -, rfl⟩ := hr
      trivial
    · simp only [Prod.mk.injEq] at hr
      obtain ⟨-, -, rfl⟩ := hr
      simp [NodeFields.node, DirTree.ParentAbsent]
    · simp only [Prod.mk.injEq] at hr
      obtain ⟨-, -, rfl⟩ := hr
      have := ih _ _ _ _ _ hC
      simp [NodeFields.node, DirTree.ParentAbsent, this]
    · simp only [Prod.mk.injEq] at hr
      obtain ⟨-, -, rfl⟩ := hr
      have h1 := ih _ _ _ _ _ hC
      have h2 := ih _ _ _ _ _ hS
      simp [NodeFields.node, DirTree.ParentAbsent, h1, h2]

/-- Every node that got to its recursive calls took at least 32 bytes of the stream; on failure
one node of the tree, the one whose checked read failed, did not get that far. -/
theorem ReadTreeFuel_size (fuel : Nat) :
    ∀ (stale : List Bool → Locals) (file f : ifstream) (ok : Bool) (t : DirTree),
      ReadTreeFuel fuel stale file = some (ok, f, t) →
      32 * t.size + f.rest.length ≤ file.rest.length + (if ok = true then 0 else 32) := by
  induction fuel with
  | zero => intro stale file f ok t h; simp [ReadTreeFuel] at h
  | succ k ih =>
    intro stale file f ok t h
    have l1 := read_length_le file (toBytes 4 (stale []).terminator) 4
    rcases ReadTreeFuel_succ_cases k stale file (ok, f, t) h with
      ⟨-, hr⟩ | ⟨-, g, e, he, hr⟩ | ⟨-, g, e, fc, C, he, hC, hr⟩ |
      ⟨-, g, e, fc, C, oks, fs, S, he, hC, hS, hr⟩
    · simp only [Prod.mk.injEq] at hr
      obtain ⟨rfl, rfl, rfl⟩ := hr
      simp only [DirTree.size, if_true]
      omega
    · simp only [Prod.mk.injEq] at hr
      obtain ⟨rfl, rfl, rfl⟩ := hr
      have l2 := ReadTreeFields_length_le (stale []).nameLength
        (file.read (toBytes 4 (stale []).terminator) 4).1
      rw [he] at l2
      simp only [] at l2
      simp only [NodeFields.node, DirTree.size]
      simp
      omega
    · simp only [Prod.mk.injEq] at hr
      obtain ⟨rfl, rfl, rfl⟩ := hr
      obtain ⟨g1, l2⟩ := ReadTreeFields_consumed (stale []).nameLength
        (file.read (toBytes 4 (stale []).terminator) 4).1 g e he
      obtain ⟨-, l0⟩ := read_good file (toBytes 4 (stale []).terminator) 4 g1
      have hi := ih (fun p => stale (false :: p)) g f false C hC
      simp only [NodeFields.node, DirTree.size]
      simp at hi ⊢
      omega
    · simp only [Prod.mk.injEq] at hr
      obtain ⟨rfl, rfl, rfl⟩ := hr
      obtain ⟨g1, l2⟩ := ReadTreeFields_consumed (stale []).nameLength
        (file.read (toBytes 4 (stale []).terminator) 4).1 g e he
      obtain ⟨-, l0⟩ := read_good file (toBytes 4 (stale []).terminator) 4 g1
      have hi := ih (fun p => stale (false :: p)) g fc true C hC
      have hj := ih (fun p => stale (true :: p)) fc f ok S hS
      simp only [NodeFields.node, DirTree.size]
      simp only [if_true] at hi
      revert hj
      cases ok <;> simp <;> omega

/-- A successful decoding that leaves the stream good took exactly 4 bytes for every empty slot
and 36 bytes plus the stored name and hint for every node, from a good stream. -/
theorem ReadTreeFuel_exact (fuel : Nat) :
    ∀ (stale : List Bool → Locals) (file f : ifstream) (t : DirTree),
      ReadTreeFuel fuel stale file = some (true, f, t) → f.good = true →
      file.good = true ∧ 4 + t.contentBytes ≤ file.rest.length ∧
        f.rest = file.rest.drop (4 + t.contentBytes) := by
  induction fuel with
  | zero => intro stale file f t h; simp [ReadTreeFuel] at h
  | succ k ih =>
    intro stale file f t h hg
    rcases ReadTreeFuel_succ_cases k stale file (true, f, t) h with
      ⟨-, hr⟩ | ⟨-, g, e, he, hr⟩ | ⟨-, g, e, fc, C, he, hC, hr⟩ |
      ⟨-, g, e, fc, C, oks, fs, S, he, hC, hS, hr⟩
    · simp only [Prod.mk.injEq, true_and] at hr
      obtain ⟨rfl, rfl⟩ := hr
      obtain ⟨g0, l0, e0⟩ := read_good_eq file (toBytes 4 (stale []).terminator) 4 hg
      exact ⟨g0, by simpa [DirTree.contentBytes] using l0, by simpa [DirTree.contentBytes] using e0⟩
    · simp at hr
    · simp at hr
    · simp only [Prod.mk.injEq] at hr
      obtain ⟨rfl, rfl, rfl⟩ := hr
      obtain ⟨gc, lS, eS⟩ := ih (fun p => stale (true :: p)) fc f S hS hg
      obtain ⟨gg, lC, eC⟩ := ih (fun p => stale (false :: p)) g fc C hC gc
      obtain ⟨g1, lE, eE⟩ := ReadTreeFields_exact (stale []).nameLength
        (file.read (toBytes 4 (stale []).terminator) 4).1 g e he gg
      obtain ⟨g0, l0, e0⟩ := read_good_eq file (toBytes 4 (stale []).terminator) 4 g1
      have h1 : (file.read (toBytes 4 (stale []).terminator) 4).1.rest.length
          = file.rest.length - 4 := by rw [e0, List.length_drop]
      have h2 : g.rest.length = (file.read (toBytes 4 (stale []).terminator) 4).1.rest.length
          - (28 + e.Name.length + e.Hints.HintData.length) := by rw [eE, List.length_drop]
      have h3 : fc.rest.length = g.rest.length - (4 + C.contentBytes) := by
        rw [eC, List.length_drop]
      refine ⟨g0, ?_, ?_⟩
      · simp only [NodeFields.node, DirTree.contentBytes]
        omega
      · rw [eS, eC, eE, e0]
        simp only [List.drop_drop, NodeFields.node, DirTree.contentBytes]
        congr 1
        omega

/-! ## Propagation of failure -/

/-- The recursive calls are made with a nesting bound that is enough for them. -/
theorem ReadTreeFuel_nested_eq (stale stale1 : List Bool → Locals) (file g g1 : ifstream)
    (e : NodeFields)
    (he : ReadTreeFields (stale []).nameLength
      (file.read (toBytes 4 (stale []).terminator) 4).1 = (true, g, e))
    (hle : g1.rest.length ≤ g.rest.length) :
    ReadTreeFuel (file.rest.length / 32) stale1 g1 = ReadTree stale1 g1 := by
  obtain ⟨g1', l2⟩ := ReadTreeFields_consumed (stale []).nameLength
    (file.read (toBytes 4 (stale []).terminator) 4).1 g e he
  obtain ⟨-, l0⟩ := read_good file (toBytes 4 (stale []).terminator) 4 g1'
  exact ReadTreeFuel_eq_ReadTree stale1 g1 _ (by omega)

/-- A recursive call that fails makes the activation that made it fail. -/
theorem slotCall_fails (stale stale1 : List Bool → Locals) (file file1 : ifstream)
    (sibling : Bool) (hcall : slotCall stale file sibling = some (stale1, file1))
    (hfail : ∃ f t, ReadTree stale1 file1 = some (false, f, t)) :
    ∃ f t, ReadTree stale file = some (false, f, t) := by
  obtain ⟨f, t, hf⟩ := hfail
  simp only [slotCall] at hcall
  split at hcall
  · simp at hcall
  next hs =>
  split at hcall
  · simp at hcall
  next g e he =>
  split at hcall
  · next hb =>
    simp only [Option.some.injEq, Prod.mk.injEq] at hcall
    obtain ⟨rfl, rfl⟩ := hcall
    have hC := ReadTreeFuel_nested_eq stale (fun p => stale (false :: p)) file g g e he
      (Nat.le_refl _)
    rw [hf] at hC
    refine ⟨f, e.node t .null, ?_⟩
    simp only [ReadTree, ReadTreeFuel_succ_eq, if_neg hs, he, hC]
  · split at hcall
    · next fc C hC1 =>
      simp only [Option.some.injEq, Prod.mk.injEq] at hcall
      obtain ⟨rfl, rfl⟩ := hcall
      have hC := ReadTreeFuel_nested_eq stale (fun p => stale (false :: p)) file g g e he
        (Nat.le_refl _)
      rw [hC1] at hC
      have hle := ReadTreeFuel_length_le _ (fun p => stale (false :: p)) g fc true C hC
      have hS := ReadTreeFuel_nested_eq stale (fun p => stale (true :: p)) file g fc e he hle
      rw [hf] at hS
      refine ⟨f, e.node C t, ?_⟩
      simp only [ReadTree, ReadTreeFuel_succ_eq, if_neg hs, he, hC, hS]
    · simp at hcall

/-- A failure at any nesting level makes the root activation fail. -/
theorem callAt_fails (path : List Bool) :
    ∀ (stale stale1 : List Bool → Locals) (file file1 : ifstream),
      callAt stale file path = some (stale1, file1) →
      (∃ f t, ReadTree stale1 file1 = some (false, f, t)) →
      ∃ f t, ReadTree stale file = some (false, f, t) := by
  induction path with
  | nil =>
    intro stale stale1 file file1 hcall hfail
    simp only [callAt, Option.some.injEq, Prod.mk.injEq] at hcall
    obtain ⟨rfl, rfl⟩ := hcall
    exact hfail
  | cons b path ih =>
    intro stale stale1 file file1 hcall hfail
    simp only [callAt] at hcall
    split at hcall
    · simp at hcall
    next s2 f2 h2 =>
    exact slotCall_fails stale s2 file f2 b h2 (ih s2 stale1 f2 file1 hcall hfail)

/-! ## Nesting of the activations -/

/-- The fields stage on the layout of a valid node. -/
theorem ReadTreeFields_encode (nl : Nat) (Name : List Byte) (Time : geVFile_Time)
    (AttributeFlags Size Offset : Nat) (Hints : geVFile_Hints) (rest : List Byte)
    (hn1 : 1 ≤ Name.length) (hn2 : Name.length ≤ 2147483647)
    (hh1 : Hints.HintData.length = Hints.HintDataLength) (hh2 : Hints.HintDataLength ≤ 2147483647)
    (ht1 : Time.Time1 < 4294967296) (ht2 : Time.Time2 < 4294967296)
    (ha : AttributeFlags < 4294967296) (hs : Size < 4294967296) (ho : Offset < 4294967296) :
    ReadTreeFields nl ⟨toBytes 4 Name.length ++ (Name ++ (toBytes 4 Time.Time1 ++
        (toBytes 4 Time.Time2 ++ (toBytes 4 AttributeFlags ++ (toBytes 4 Size ++
        (toBytes 4 Offset ++ (toBytes 4 Hints.HintDataLength ++ (Hints.HintData ++ rest)))))))),
        true⟩
      = (true, ⟨rest, true⟩, ⟨Name, Time, AttributeFlags, Size, Offset, Hints⟩) := by
  have hname := fun r o => ReadStringFromFile_front Name r o (by omega) (by omega)
  have hhint : ∀ r, ReadStringFromFile ⟨Hints.HintData ++ r, true⟩ []
      (toInt32 Hints.HintDataLength)
        = (decide (Hints.HintDataLength ≠ 0), ⟨r, true⟩, Hints.HintData) := by
    intro r
    by_cases h0 : Hints.HintDataLength = 0
    · have hnil : Hints.HintData = [] := List.length_eq_zero.mp (by omega)
      simp [h0, hnil, ReadStringFromFile_zero]
    · have := ReadStringFromFile_front Hints.HintData r [] (by omega) (by omega)
      rw [hh1] at this
      simp [this, h0]
  have m0 : Name.length % 4294967296 = Name.length := Nat.mod_eq_of_lt (by omega)
  have m1 := Nat.mod_eq_of_lt ht1
  have m2 := Nat.mod_eq_of_lt ht2
  have m3 := Nat.mod_eq_of_lt ha
  have m4 := Nat.mod_eq_of_lt hs
  have m5 := Nat.mod_eq_of_lt ho
  have m6 : Hints.HintDataLength % 4294967296 = Hints.HintDataLength :=
    Nat.mod_eq_of_lt (by omega)
  simp only [ReadTreeFields, read4_toBytes, fromBytes_toBytes4, m0, hname,
    ReadFromFile_Time_front, ReadFromFile_u32_front, m1, m2, m3, m4, m5, m6, hhint]

/-- Decoding the layout of a valid tree hits every nesting bound that does not exceed the depth
of the tree: the activations nest one deeper than the tree. -/
theorem ReadTreeFuel_depth_none (t : DirTree) :
    ∀ (probe : List Bool → Nat) (stale : List Bool → Locals) (rest : List Byte) (fuel : Nat),
      t.Valid → (∀ p, probe p % 4294967296 ≠ DIRTREE_LIST_TERMINATED) → fuel ≤ t.depth →
      ReadTreeFuel fuel stale ⟨encode probe t ++ rest, true⟩ = none := by
  induction t with
  | null =>
    intro probe stale rest fuel _ _ hf
    have : fuel = 0 := by simpa [DirTree.depth] using hf
    subst this
    rfl
  | node Name Time AttributeFlags Size Offset Hints Parent Children Siblings _ ihC ihS =>
    intro probe stale rest fuel hv hp hf
    cases fuel with
    | zero => rfl
    | succ k =>
      obtain ⟨hn1, hn2, hh1, hh2, hpar, ht1, ht2, ha, hs, ho, hvc, hvs⟩ := hv
      have hk : k ≤ max Children.depth Siblings.depth := by
        simp only [DirTree.depth] at hf
        omega
      have hF := fun r => ReadTreeFields_encode (stale []).nameLength Name Time AttributeFlags
        Size Offset Hints r hn1 hn2 hh1 hh2 ht1 ht2 ha hs ho
      by_cases hc : k ≤ Children.depth
      · have hC := ihC (fun p => probe (false :: p)) (fun p => stale (false :: p))
          (encode (fun p => probe (true :: p)) Siblings ++ rest) k hvc (fun p => hp _) hc
        simp only [ReadTreeFuel_succ_eq, encode_node, List.append_assoc, read4_toBytes,
          fromBytes_toBytes4, hp [], if_false, hF, hC]
      · have hC := ReadTreeFuel_encode Children (fun p => probe (false :: p))
          (fun p => stale (false :: p)) (encode (fun p => probe (true :: p)) Siblings ++ rest) k
          hvc (fun p => hp _) (by omega)
        have hS := ihS (fun p => probe (true :: p)) (fun p => stale (true :: p)) rest k hvs
          (fun p => hp _) (by omega)
        simp only [ReadTreeFuel_succ_eq, encode_node, List.append_assoc, read4_toBytes,
          fromBytes_toBytes4, hp [], if_false, hF, hC, hS]

theorem siblingChain_valid (n : Nat) : (siblingChain n).Valid := by
  induction n with
  | zero => trivial
  | succ n ih => simp [siblingChain, DirTree.Valid, ih]

theorem siblingChain_depth (n : Nat) : (siblingChain n).depth = n := by
  induction n with
  | zero => rfl
  | succ n ih => simp [siblingChain, DirTree.depth, ih]; omega

theorem siblingChain_destroyDepth (n : Nat) : (siblingChain n).destroyDepth = n := by
  induction n with
  | zero => rfl
  | succ n ih => simp [siblingChain, DirTree.destroyDepth, ih]; omega

theorem siblingChain_size (n : Nat) : (siblingChain n).size = n := by
  induction n with
  | zero => rfl
  | succ n ih => simp [siblingChain, DirTree.size, ih]; omega

/-! ## The probe and the name length -/

/-- The name of the node is what the name read left in the string, on every path. -/
theorem ReadTreeFields_Name (nl : Nat) (f : ifstream) :
    (ReadTreeFields nl f).2.2.Name
      = (ReadStringFromFile (f.read (toBytes 4 nl) 4).1 []
          (toInt32 (fromBytes (f.read (toBytes 4 nl) 4).2))).2.2 := by
  simp only [ReadTreeFields]
  split
  · rfl
  split
  · rfl
  split
  · rfl
  split
  · rfl
  split
  · rfl
  rfl

/-- The four bytes after the probe are the name length, and the name is what follows them. -/
theorem ReadTreeFields_name_front (nl : Nat) (len tail : List Byte) (hl : len.length = 4)
    (hpos : 0 < toInt32 (fromBytes len)) (hle : (toInt32 (fromBytes len)).toNat ≤ tail.length) :
    (ReadTreeFields nl ⟨len ++ tail, true⟩).2.2.Name
      = tail.take (toInt32 (fromBytes len)).toNat := by
  rw [ReadTreeFields_Name, read_front len tail (toBytes 4 nl) 4 hl (by rw [toBytes_length])]
  have hn : ¬ (toInt32 (fromBytes len) ≤ 0) := by omega
  simp [ReadStringFromFile, hn, ifstream.read, hle, resize]

/-- After a probe that is not the sentinel the activation goes on from the byte after it, and
the value of the probe is not used again. -/
theorem ReadTreeFuel_probe_front (k : Nat) (stale : List Bool → Locals) (p rest : List Byte)
    (hl : p.length = 4) (hp : fromBytes p ≠ DIRTREE_LIST_TERMINATED) :
    ReadTreeFuel (k + 1) stale ⟨p ++ rest, true⟩ =
      match ReadTreeFields (stale []).nameLength ⟨rest, true⟩ with
      | (false, file, e) => some (false, file, e.node .null .null)
      | (true, file, e) =>
      match ReadTreeFuel k (fun q => stale (false :: q)) file with
      | none => none
      | some (false, file, Children) => some (false, file, e.node Children .null)
      | some (true, file, Children) =>
      match ReadTreeFuel k (fun q => stale (true :: q)) file with
      | none => none
      | some (ok, file, Siblings) => some (ok, file, e.node Children Siblings) := by
  rw [ReadTreeFuel_succ_eq,
    read_front p rest (toBytes 4 (stale []).terminator) 4 hl (by rw [toBytes_length])]
  simp only [if_neg hp]

/-- After a probe that is not the sentinel the caller's pointer holds a node with the members
the fields stage read. -/
theorem ReadTree_node_of_probe (stale : List Bool → Locals) (p rest : List Byte)
    (hl : p.length = 4) (hp : fromBytes p ≠ DIRTREE_LIST_TERMINATED) :
    ∃ ok f C Sib, ReadTree stale ⟨p ++ rest, true⟩
      = some (ok, f, (ReadTreeFields (stale []).nameLength ⟨rest, true⟩).2.2.node C Sib) := by
  obtain ⟨r, hr⟩ := Option.isSome_iff_exists.mp (ReadTree_isSome stale ⟨p ++ rest, true⟩)
  have hr2 := hr
  unfold ReadTree at hr2
  rw [ReadTreeFuel_probe_front _ stale p rest hl hp] at hr2
  rw [hr]
  split at hr2
  · next g e he =>
    simp only [Option.some.injEq] at hr2
    exact ⟨false, g, .null, .null, by rw [← hr2, he]⟩
  next g e he =>
  split at hr2
  · simp at hr2
  · next fc C hC =>
    simp only [Option.some.injEq] at hr2
    exact ⟨false, fc, C, .null, by rw [← hr2, he]⟩
  · next fc C hC =>
    split at hr2
    · simp at hr2
    · next ok fs S hS =>
      simp only [Option.some.injEq] at hr2
      exact ⟨ok, fs, C, S, by rw [← hr2, he]⟩

/-! ## The two readers -/

theorem ReadFromFile_iff (file : ifstream) (data : List Byte) :
    (ReadFromFile file data).1 = true ↔
      (file.good = true ∧ data.length ≤ file.rest.length) := by
  unfold ReadFromFile ifstream.read
  by_cases hg : file.good = true
  · by_cases hn : data.length ≤ file.rest.length
    · simp [hg, hn]
    · simp [hg, hn]
  · simp [hg]

theorem ReadFromFile_success (file : ifstream) (data : List Byte) (hg : file.good = true)
    (hn : data.length ≤ file.rest.length) :
    ReadFromFile file data
      = (true, ⟨file.rest.drop data.length, true⟩, file.rest.take data.length) := by
  simp [ReadFromFile, ifstream.read, hg, hn]

theorem ReadStringFromFile_success (file : ifstream) (out : List Byte) (n : Int)
    (hpos : 0 < n) (hg : file.good = true) (hn : n.toNat ≤ file.rest.length) :
    ReadStringFromFile file out n
      = (true, ⟨file.rest.drop n.toNat, true⟩, file.rest.take n.toNat) := by
  have h0 : ¬ (n ≤ 0) := by omega
  have hr : (resize out n.toNat).length ≤ n.toNat := by
    simp [resize]
    omega
  simp [ReadStringFromFile, h0, ifstream.read, hg, hn, List.drop_eq_nil_of_le hr]

theorem ReadStringFromFile_fails_short (file : ifstream) (out : List Byte) (n : Int)
    (hn : file.rest.length < n.toNat) : (ReadStringFromFile file out n).1 = false := by
  have h0 : ¬ (n ≤ 0) := by omega
  have h1 : ¬ (n.toNat ≤ file.rest.length) := by omega
  cases hg : file.good <;> simp [ReadStringFromFile, h0, ifstream.read, hg, h1]

/-! ## Claims -/

/-- C1: round trip against the documented record layout.  For every tree in which every name has
between 1 and `2^31 - 1` bytes, every hint has as many bytes as its stored `HintDataLength` (at
most `2^31 - 1`) and every `Parent` is absent, for every choice of non-sentinel probes and every
byte sequence `rest`, `ReadTree` on `encode tree ++ rest` returns `true` with exactly the
original tree and leaves the stream good with exactly `rest` still to read. -/
theorem C1_roundtrip (probe : List Bool → Nat) (stale : List Bool → Locals) (t : DirTree)
    (rest : List Byte) (hv : t.Valid)
    (hp : ∀ p, probe p % 4294967296 ≠ DIRTREE_LIST_TERMINATED) :
    ReadTree stale ⟨encode probe t ++ rest, true⟩ = some (true, ⟨rest, true⟩, t) :=
  ReadTree_encode probe stale t rest hv hp

/-- C1 at a concrete tree: root "A" with a child "B" that carries a hint and a sibling "C",
followed by three more bytes. -/
theorem C1_roundtrip_witness :
    treeABC.Valid ∧ (∀ p, probe0 p % 4294967296 ≠ DIRTREE_LIST_TERMINATED) ∧
    ReadTree stale0 ⟨encode probe0 treeABC ++ [1, 2, 3], true⟩
      = some (true, ⟨[1, 2, 3], true⟩, treeABC) :=
  ⟨by simp [treeABC, DirTree.Valid], fun _ => by simp [probe0, DIRTREE_LIST_TERMINATED],
   C1_roundtrip probe0 stale0 treeABC [1, 2, 3] (by simp [treeABC, DirTree.Valid])
     (fun _ => by simp [probe0, DIRTREE_LIST_TERMINATED])⟩

/-- C2: on a good stream whose next four bytes are `FF FF FF FF`, whatever follows, `ReadTree`
returns `true`, the tree is absent, and exactly those four bytes are consumed (the stream is left
good at the first byte after them). -/
theorem C2_sentinel_slot (stale : List Bool → Locals) (tail : List Byte) :
    ReadTree stale ⟨255 :: 255 :: 255 :: 255 :: tail, true⟩
      = some (true, ⟨tail, true⟩, DirTree.null) := by
  have h := read_front [255, 255, 255, 255] tail (toBytes 4 (stale []).terminator) 4 rfl
    (by rw [toBytes_length])
  simp only [List.cons_append, List.nil_append] at h
  simp only [ReadTree, ReadTreeFuel, h]
  rfl

/-- C3 (what the code does at the failing inputs): with a non-sentinel probe and a declared name
length of 0, or of -1, followed by well-formed fields and two empty slots, `ReadTree` returns
`true` with a node whose name is the empty string: the `false` that `ReadStringFromFile` returns
for the non-positive length is dropped by `ReadTree`. -/
theorem C3_nonpositive_name_length_accepted (stale : List Bool → Locals) :
    ReadTree stale ⟨zeroNameStream, true⟩
      = some (true, ⟨[], true⟩, .node [] ⟨1, 2⟩ 3 4 5 ⟨0, []⟩ .null .null .null) ∧
    ReadTree stale ⟨negativeNameStream, true⟩
      = some (true, ⟨[], true⟩, .node [] ⟨1, 2⟩ 3 4 5 ⟨0, []⟩ .null .null .null) :=
  ⟨ReadTreeFuel_leaf 0 stale 0 0 1 2 3 4 5 0 [] [] (by decide) (Or.inl ⟨by decide, rfl⟩)
      (by decide),
   ReadTreeFuel_leaf 0 stale 0 4294967295 1 2 3 4 5 0 [] [] (by decide)
      (Or.inl ⟨by decide, rfl⟩) (by decide)⟩

/-- C4 fails as stated: on a stream that ends inside `time2`, `ReadTree` returns `false` and the
caller's pointer holds a node, populated with the name and with the bytes of the timestamp that
were there. -/
theorem C4_counterexample :
    ReadTree stale0 ⟨truncatedTimeStream, true⟩
      = some (false, ⟨[], false⟩, .node [65] ⟨7, 513⟩ 0 0 0 ⟨0, []⟩ .null .null .null) ∧
    DirTree.node [65] ⟨7, 513⟩ 0 0 0 ⟨0, []⟩ .null .null .null ≠ DirTree.null := by
  constructor
  · rfl
  · simp

/-- C4 as amended: whenever `ReadTree` returns `false`, the caller's pointer is not absent: it
holds the node that was allocated for the slot before the failing read. -/
theorem C4_failure_leaves_node (stale : List Bool → Locals) (file f : ifstream) (t : DirTree)
    (h : ReadTree stale file = some (false, f, t)) : t ≠ DirTree.null :=
  ReadTreeFuel_false_node _ stale file f t h

/-- C4 as amended, at a stream that ends inside the hint-length field. -/
theorem C4_failure_leaves_node_witness :
    ReadTree stale0 ⟨[0, 0, 0, 0,  1, 0, 0, 0,  65,  1, 0, 0, 0,  2, 0, 0, 0,  3, 0, 0, 0,
        4, 0, 0, 0,  5, 0, 0, 0,  6, 6, 6], true⟩
      = some (false, ⟨[], false⟩, .node [65] ⟨1, 2⟩ 3 4 5 ⟨394758, []⟩ .null .null .null) ∧
    DirTree.node [65] ⟨1, 2⟩ 3 4 5 ⟨394758, []⟩ .null .null .null ≠ DirTree.null :=
  ⟨rfl, C4_failure_leaves_node stale0
    ⟨[0, 0, 0, 0,  1, 0, 0, 0,  65,  1, 0, 0, 0,  2, 0, 0, 0,  3, 0, 0, 0,
        4, 0, 0, 0,  5, 0, 0, 0,  6, 6, 6], true⟩ ⟨[], false⟩
    (.node [65] ⟨1, 2⟩ 3 4 5 ⟨394758, []⟩ .null .null .null) rfl⟩

/-- C5: when the four bytes of the slot probe are present and are not the sentinel, and the
stream ends before the end of the hint-length field (inside the name length, or, the four bytes
of the name length being there, before the name bytes they call for and the 24 bytes of `time1`,
`time2`, `attributeFlags`, `size`, `offset`, `hintLength` are all there), `ReadTree` returns
`false`. -/
theorem C5_truncated_before_hint_length (stale : List Bool → Locals) (probe rest : List Byte)
    (hl : probe.length = 4) (hp : fromBytes probe ≠ DIRTREE_LIST_TERMINATED)
    (hshort : rest.length < 4 ∨
      ∃ len tail, rest = len ++ tail ∧ len.length = 4 ∧
        tail.length < declaredBytes (fromBytes len) + 24) :
    ∃ f t, ReadTree stale ⟨probe ++ rest, true⟩ = some (false, f, t) := by
  have h := ReadTreeFuel_truncated ((probe ++ rest).length / 32) stale (fromBytes probe) rest
    (by rw [Nat.mod_eq_of_lt (fromBytes_lt probe hl)]; exact hp)
    (by
      rcases hshort with h | ⟨len, tail, h1, h2, h3⟩
      · exact Or.inl h
      · exact Or.inr ⟨fromBytes len, tail, by rw [toBytes_fromBytes len h2]; exact h1, h3⟩)
  rw [toBytes_fromBytes probe hl] at h
  exact h

/-- C5 at a concrete stream: probe 0, name length 3, the name "abc", and 23 of the 24 bytes of
the fixed-width fields. -/
theorem C5_truncated_before_hint_length_witness :
    ([0, 0, 0, 0] : List Byte).length = 4 ∧
    fromBytes [0, 0, 0, 0] ≠ DIRTREE_LIST_TERMINATED ∧
    (([3, 0, 0, 0] ++ (97 :: 98 :: 99 :: List.replicate 23 0) : List Byte).length < 4 ∨
      ∃ len tail, ([3, 0, 0, 0] ++ (97 :: 98 :: 99 :: List.replicate 23 0) : List Byte)
        = len ++ tail ∧ len.length = 4 ∧ tail.length < declaredBytes (fromBytes len) + 24) ∧
    ∃ f t, ReadTree stale0
        ⟨[0, 0, 0, 0] ++ ([3, 0, 0, 0] ++ (97 :: 98 :: 99 :: List.replicate 23 0)), true⟩
      = some (false, f, t) :=
  ⟨rfl, by decide, Or.inr ⟨[3, 0, 0, 0], _, rfl, rfl, by decide⟩,
   C5_truncated_before_hint_length stale0 [0, 0, 0, 0]
     ([3, 0, 0, 0] ++ (97 :: 98 :: 99 :: List.replicate 23 0)) rfl (by decide)
     (Or.inr ⟨[3, 0, 0, 0], _, rfl, rfl, by decide⟩)⟩

/-- C6: `GetNames` is the pre-order enumeration over the child/sibling encoding: the absent tree
gives the empty sequence, a node gives its own name, then the names of its children slot, then
the names of its siblings slot.  `GetNames` is a total function, it has no failure case. -/
theorem C6_GetNames_preorder :
    GetNames DirTree.null = [] ∧
    ∀ (Name : List Byte) (Time : geVFile_Time) (AttributeFlags Size Offset : Nat)
      (Hints : geVFile_Hints) (Parent Children Siblings : DirTree),
      GetNames (DirTree.node Name Time AttributeFlags Size Offset Hints Parent Children Siblings)
        = [Name] ++ GetNames Children ++ GetNames Siblings := by
  refine ⟨rfl, ?_⟩
  intro Name Time AttributeFlags Size Offset Hints Parent Children Siblings
  cases Children <;> cases Siblings <;> simp [GetNames]

/-- C7: for every valid encoding, `ReadTree` succeeds and `GetNames` of the tree it returns is
the list of the name fields of the record layout in the order in which they occur in the
stream. -/
theorem C7_names_in_stream_order (probe : List Bool → Nat) (stale : List Bool → Locals)
    (t : DirTree) (rest : List Byte) (hv : t.Valid)
    (hp : ∀ p, probe p % 4294967296 ≠ DIRTREE_LIST_TERMINATED) :
    ∃ t', ReadTree stale ⟨fieldBytes (layout probe t) ++ rest, true⟩
        = some (true, ⟨rest, true⟩, t') ∧
      GetNames t' = (layout probe t).filterMap Field.name? :=
  ⟨t, ReadTree_encode probe stale t rest hv hp, (layout_names t probe).symm⟩

/-- C7 at the scenario of the specification: the encoding of root "A" with one child "B" and one
sibling "C" yields the names "A", "B", "C". -/
theorem C7_names_in_stream_order_witness :
    treeABC.Valid ∧ (∀ p, probe0 p % 4294967296 ≠ DIRTREE_LIST_TERMINATED) ∧
    (∃ t', ReadTree stale0 ⟨fieldBytes (layout probe0 treeABC) ++ [], true⟩
        = some (true, ⟨[], true⟩, t') ∧
      GetNames t' = (layout probe0 treeABC).filterMap Field.name?) ∧
    (layout probe0 treeABC).filterMap Field.name? = [[65], [66], [67]] :=
  ⟨by simp [treeABC, DirTree.Valid], fun _ => by simp [probe0, DIRTREE_LIST_TERMINATED],
   C7_names_in_stream_order probe0 stale0 treeABC [] (by simp [treeABC, DirTree.Valid])
     (fun _ => by simp [probe0, DIRTREE_LIST_TERMINATED]),
   by decide⟩

/-- C8 fails as stated: on the stream `[4][A.txt][1][2][3][4][5][0][FFFFFFFF][FFFFFFFF]` the 4 is
taken as the probe and the bytes "A.tx" as the name length 2020879937; the 33 bytes that are left
go into a name of that length and `ReadTree` returns `false`. -/
theorem C8_counterexample :
    ReadTree stale0 ⟨leafStreamAsWritten 1 2 3 4 5, true⟩
      = some (false, ⟨[], false⟩,
          .node ([116,  1, 0, 0, 0,  2, 0, 0, 0,  3, 0, 0, 0,  4, 0, 0, 0,  5, 0, 0, 0,
                  0, 0, 0, 0,  255, 255, 255, 255,  255, 255, 255, 255]
                 ++ List.replicate 2020879904 0)
            ⟨0, 0⟩ 0 0 0 ⟨0, []⟩ .null .null .null) := by
  have hn : (toInt32 2020879937).toNat = 2020879937 := by decide
  have h := ReadTreeFuel_name_overrun 1 stale0 4 2020879937
    [116,  1, 0, 0, 0,  2, 0, 0, 0,  3, 0, 0, 0,  4, 0, 0, 0,  5, 0, 0, 0,
     0, 0, 0, 0,  255, 255, 255, 255,  255, 255, 255, 255] (by decide) (by rw [hn]; decide)
  have e1 : (toInt32 2020879937).toNat - ([116,  1, 0, 0, 0,  2, 0, 0, 0,  3, 0, 0, 0,
      4, 0, 0, 0,  5, 0, 0, 0,  0, 0, 0, 0,  255, 255, 255, 255,  255, 255, 255, 255] :
      List Byte).length = 2020879904 := by rw [hn]; decide
  have e2 : leafStreamAsWritten 1 2 3 4 5 = toBytes 4 4 ++ (toBytes 4 2020879937 ++
      [116,  1, 0, 0, 0,  2, 0, 0, 0,  3, 0, 0, 0,  4, 0, 0, 0,  5, 0, 0, 0,
       0, 0, 0, 0,  255, 255, 255, 255,  255, 255, 255, 255]) := by decide
  have e3 : (leafStreamAsWritten 1 2 3 4 5).length / 32 + 1 = 1 + 1 := by decide
  rw [e1] at h
  unfold ReadTree
  simp only [e3]
  rw [e2]
  exact h

/-- C8 as amended: with the name length 5 between the value 4 (the probe) and the name, the
stream `[4][5][A.txt][time1][time2][flags][size][offset][0][FFFFFFFF][FFFFFFFF]` decodes to one
node named "A.txt" with those fields, children and siblings absent, nothing left to read, and
`GetNames` of it is `["A.txt"]`. -/
theorem C8_leaf_with_name_length (stale : List Bool → Locals)
    (time1 time2 flags size offset : Nat)
    (h1 : time1 < 4294967296) (h2 : time2 < 4294967296) (h3 : flags < 4294967296)
    (h4 : size < 4294967296) (h5 : offset < 4294967296) :
    ReadTree stale ⟨leafStream time1 time2 flags size offset, true⟩
      = some (true, ⟨[], true⟩, leafAtxt time1 time2 flags size offset) ∧
    GetNames (leafAtxt time1 time2 flags size offset) = [[65, 46, 116, 120, 116]] := by
  have hlen : (leafStream time1 time2 flags size offset).length / 32 + 1 = 0 + 2 := by
    simp [leafStream, toBytes_length]
  have h := ReadTreeFuel_leaf 0 stale 4 5 time1 time2 flags size offset 0
    [65, 46, 116, 120, 116] [] (by decide) (Or.inr ⟨by decide, by decide, rfl⟩) (by decide)
  rw [Nat.mod_eq_of_lt h1, Nat.mod_eq_of_lt h2, Nat.mod_eq_of_lt h3, Nat.mod_eq_of_lt h4,
    Nat.mod_eq_of_lt h5] at h
  refine ⟨?_, rfl⟩
  unfold ReadTree
  simp only [hlen]
  exact h

/-- C8 as amended, with the fields 1, 2, 3, 4, 5. -/
theorem C8_leaf_with_name_length_witness :
    ((1 : Nat) < 4294967296 ∧ (2 : Nat) < 4294967296 ∧ (3 : Nat) < 4294967296 ∧
      (4 : Nat) < 4294967296 ∧ (5 : Nat) < 4294967296) ∧
    ReadTree stale0 ⟨leafStream 1 2 3 4 5, true⟩
      = some (true, ⟨[], true⟩, leafAtxt 1 2 3 4 5) ∧
    GetNames (leafAtxt 1 2 3 4 5) = [[65, 46, 116, 120, 116]] :=
  ⟨by decide, C8_leaf_with_name_length stale0 1 2 3 4 5 (by decide) (by decide) (by decide)
    (by decide) (by decide)⟩

/-- C9 (what the code does at the failing input): the stream ends two bytes into a four-byte
hint.  The failed hint read is not checked, and the two nested calls test a `terminator` that
their failed read left untouched.  When those stale words are `0xFFFFFFFF`, `ReadTree` returns
`true` with the hint half filled; when they are 0 it returns `false`. -/
theorem C9_truncated_hint_result_depends_on_stale_locals :
    ReadTree staleSentinel ⟨truncatedHintStream, true⟩
      = some (true, ⟨[], false⟩,
          .node [65] ⟨1, 2⟩ 3 4 5 ⟨4, [9, 8, 0, 0]⟩ .null .null .null) ∧
    ReadTree stale0 ⟨truncatedHintStream, true⟩
      = some (false, ⟨[], false⟩,
          .node [65] ⟨1, 2⟩ 3 4 5 ⟨4, [9, 8, 0, 0]⟩ .null
            (.node [] ⟨0, 0⟩ 0 0 0 ⟨0, []⟩ .null .null .null) .null) := by
  constructor <;> rfl

/-- C10 (what the code does at the failing input): with hint length `0x80000000`, negative as
`int32_t`, `ReadTree` returns `true`: no hint byte is read, `HintData` stays empty, the stored
`HintDataLength` is `2147483648`, and decoding goes on with the children slot. -/
theorem C10_negative_hint_length_accepted (stale : List Bool → Locals) :
    ReadTree stale ⟨negativeHintStream, true⟩
      = some (true, ⟨[], true⟩,
          .node [65] ⟨1, 2⟩ 3 4 5 ⟨2147483648, []⟩ .null .null .null) :=
  ReadTreeFuel_leaf 0 stale 0 1 1 2 3 4 5 2147483648 [65] [] (by decide)
    (Or.inr ⟨by decide, by decide, rfl⟩) (by decide)

/-- C11: the contract of `ReadStringFromFile`.  A length that is not positive fails at once,
takes no byte and leaves the output string as it was.  A positive length on a stream in a good
state with at least that many bytes left succeeds, the output is exactly the next `length` bytes
and the stream is left good right after them.  A positive length with fewer bytes left fails
(whatever the state of the stream). -/
theorem C11_ReadStringFromFile_contract (file : ifstream) (outString : List Byte)
    (length : Int) :
    (length ≤ 0 → ReadStringFromFile file outString length = (false, file, outString)) ∧
    (0 < length → file.good = true → length.toNat ≤ file.rest.length →
      ReadStringFromFile file outString length
        = (true, ⟨file.rest.drop length.toNat, true⟩, file.rest.take length.toNat)) ∧
    (0 < length → file.rest.length < length.toNat →
      (ReadStringFromFile file outString length).1 = false) :=
  ⟨ReadStringFromFile_nonpos file outString length,
   ReadStringFromFile_success file outString length,
   fun _ h => ReadStringFromFile_fails_short file outString length h⟩

/-- C11 at concrete streams: length 0 and -3 on "abc", length 2 on "abc", length 5 on "abc". -/
theorem C11_ReadStringFromFile_contract_witness :
    ReadStringFromFile ⟨[97, 98, 99], true⟩ [120] 0 = (false, ⟨[97, 98, 99], true⟩, [120]) ∧
    ReadStringFromFile ⟨[97, 98, 99], true⟩ [120] (-3) = (false, ⟨[97, 98, 99], true⟩, [120]) ∧
    ReadStringFromFile ⟨[97, 98, 99], true⟩ [120] 2 = (true, ⟨[99], true⟩, [97, 98]) ∧
    (ReadStringFromFile ⟨[97, 98, 99], true⟩ [120] 5).1 = false :=
  ⟨(C11_ReadStringFromFile_contract ⟨[97, 98, 99], true⟩ [120] 0).1 (by decide),
   (C11_ReadStringFromFile_contract ⟨[97, 98, 99], true⟩ [120] (-3)).1 (by decide),
   (C11_ReadStringFromFile_contract ⟨[97, 98, 99], true⟩ [120] 2).2.1 (by decide) rfl
     (by decide),
   (C11_ReadStringFromFile_contract ⟨[97, 98, 99], true⟩ [120] 5).2.2 (by decide) (by decide)⟩

/-- C12: the contract of `ReadFromFile<T>`.  It returns `true` if and only if the stream is in a
good state and at least `sizeof(T)` bytes are left; then the object holds the next `sizeof(T)`
bytes and the stream is left good right after them.  For a `uint32_t` that is 4 bytes, read
little-endian; for `geVFile_Time` 8 bytes, `Time1` from the first four and `Time2` from the
next four. -/
theorem C12_ReadFromFile_contract (file : ifstream) (data : List Byte) (d : Nat)
    (t : geVFile_Time) :
    ((ReadFromFile file data).1 = true ↔
      (file.good = true ∧ data.length ≤ file.rest.length)) ∧
    (file.good = true → data.length ≤ file.rest.length →
      ReadFromFile file data
        = (true, ⟨file.rest.drop data.length, true⟩, file.rest.take data.length)) ∧
    ((ReadFromFile_u32 file d).1 = true ↔ (file.good = true ∧ 4 ≤ file.rest.length)) ∧
    (file.good = true → 4 ≤ file.rest.length →
      ReadFromFile_u32 file d
        = (true, ⟨file.rest.drop 4, true⟩, fromBytes (file.rest.take 4))) ∧
    ((ReadFromFile_Time file t).1 = true ↔ (file.good = true ∧ 8 ≤ file.rest.length)) ∧
    (file.good = true → 8 ≤ file.rest.length →
      ReadFromFile_Time file t
        = (true, ⟨file.rest.drop 8, true⟩,
            ⟨fromBytes (file.rest.take 4), fromBytes ((file.rest.take 8).drop 4)⟩)) ∧
    (∀ b0 b1 b2 b3 : Byte,
      fromBytes [b0, b1, b2, b3]
        = b0.val + 256 * b1.val + 65536 * b2.val + 16777216 * b3.val) := by
  have hu := ReadFromFile_iff file (toBytes 4 d)
  have ht := ReadFromFile_iff file (toBytes 4 t.Time1 ++ toBytes 4 t.Time2)
  simp only [List.length_append, toBytes_length] at hu ht
  refine ⟨ReadFromFile_iff file data, ReadFromFile_success file data, hu, ?_, ht, ?_, ?_⟩
  · intro hg hn
    have := ReadFromFile_success file (toBytes 4 d) hg (by rw [toBytes_length]; exact hn)
    simp only [toBytes_length] at this
    simp only [ReadFromFile_u32, this]
  · intro hg hn
    have := ReadFromFile_success file (toBytes 4 t.Time1 ++ toBytes 4 t.Time2) hg
      (by simp only [List.length_append, toBytes_length]; exact hn)
    simp only [List.length_append, toBytes_length] at this
    simp only [ReadFromFile_Time, this, List.take_take]
    rfl
  · intro b0 b1 b2 b3
    simp only [fromBytes]
    omega

/-- C12 at a concrete stream: the bytes 78 56 34 12 are the value `0x12345678`. -/
theorem C12_ReadFromFile_contract_witness :
    ReadFromFile_u32 ⟨[120, 86, 52, 18, 9], true⟩ 0 = (true, ⟨[9], true⟩, 305419896) ∧
    ReadFromFile_Time ⟨[1, 0, 0, 0, 2, 0, 0, 0, 9], true⟩ ⟨0, 0⟩
      = (true, ⟨[9], true⟩, ⟨1, 2⟩) ∧
    (ReadFromFile_u32 ⟨[120, 86, 52], true⟩ 0).1 = false ∧
    (ReadFromFile_u32 ⟨[120, 86, 52, 18, 9], false⟩ 0).1 = false :=
  ⟨(C12_ReadFromFile_contract ⟨[120, 86, 52, 18, 9], true⟩ [] 0 ⟨0, 0⟩).2.2.2.1 rfl
     (by decide),
   (C12_ReadFromFile_contract ⟨[1, 0, 0, 0, 2, 0, 0, 0, 9], true⟩ [] 0 ⟨0, 0⟩).2.2.2.2.2.1 rfl
     (by decide),
   by decide, by decide⟩

/-- C13: errors propagate to all unfinished ancestors.  If the activation reached from a root
activation along any path of children and siblings slots returns `false`, the root activation
returns `false`.  For a path of one slot this is: if the recursive call for the children slot
of a node fails, or the one for its siblings slot fails, the call for that node fails. -/
theorem C13_failure_propagates (stale stale1 : List Bool → Locals) (file file1 : ifstream)
    (path : List Bool) (hcall : callAt stale file path = some (stale1, file1))
    (hfail : ∃ f t, ReadTree stale1 file1 = some (false, f, t)) :
    ∃ f t, ReadTree stale file = some (false, f, t) :=
  callAt_fails path stale stale1 file file1 hcall hfail

/-- C13 at a concrete stream: root "A", its child "B", and the sibling of "B" truncated inside
its fixed-width fields; the failing activation is two levels below the root. -/
theorem C13_failure_propagates_witness :
    callAt stale0 ⟨nestedFailureStream, true⟩ [false, true]
      = some (fun p => stale0 (false :: true :: p), ⟨truncatedEntry, true⟩) ∧
    (∃ f t, ReadTree (fun p => stale0 (false :: true :: p)) ⟨truncatedEntry, true⟩
      = some (false, f, t)) ∧
    ∃ f t, ReadTree stale0 ⟨nestedFailureStream, true⟩ = some (false, f, t) :=
  ⟨rfl, ⟨_, _, rfl⟩,
   C13_failure_propagates stale0 (fun p => stale0 (false :: true :: p))
     ⟨nestedFailureStream, true⟩ ⟨truncatedEntry, true⟩ [false, true] rfl ⟨_, _, rfl⟩⟩

/-- C14: `ReadTree` always returns, and in the tree it leaves in the caller's pointer, on
success and on failure, the `Parent` of every node is absent. -/
theorem C14_parent_never_populated (stale : List Bool → Locals) (file : ifstream) :
    ∃ ok f t, ReadTree stale file = some (ok, f, t) ∧ t.ParentAbsent := by
  obtain ⟨⟨ok, f, t⟩, hr⟩ := Option.isSome_iff_exists.mp (ReadTree_isSome stale file)
  exact ⟨ok, f, t, hr, ReadTreeFuel_ParentAbsent _ stale file f ok t hr⟩

/-- C15 fails as stated: the nesting of `ReadTree` activations grows with the sibling chain.
Two nested activations decode a chain of one entry but hit the bound on a chain of two, and
100,000 nested activations hit the bound on the chain of 100,000 entries. -/
theorem C15_counterexample :
    ReadTreeFuel 2 stale0 ⟨encode probe0 (siblingChain 1), true⟩
      = some (true, ⟨[], true⟩, siblingChain 1) ∧
    ReadTreeFuel 2 stale0 ⟨encode probe0 (siblingChain 2), true⟩ = none ∧
    ReadTreeFuel 100000 stale0 ⟨encode probe0 (siblingChain 100000) ++ [], true⟩ = none := by
  refine ⟨rfl, rfl, ?_⟩
  exact ReadTreeFuel_depth_none (siblingChain 100000) probe0 stale0 [] 100000
    (siblingChain_valid 100000) (fun _ => by simp [probe0, DIRTREE_LIST_TERMINATED])
    (by rw [siblingChain_depth])

/-- C15 as amended: a right-leaning sibling chain of `n` entries decodes to the chain of `n`
nodes, and it takes exactly `n + 1` nested activations of `ReadTree` to do so: every nesting
bound up to `n` is hit, every larger one is not.  Releasing the chain nests `n` destructor
calls. -/
theorem C15_sibling_chain_nests (n : Nat) (probe : List Bool → Nat)
    (stale : List Bool → Locals) (rest : List Byte)
    (hp : ∀ p, probe p % 4294967296 ≠ DIRTREE_LIST_TERMINATED) :
    ReadTree stale ⟨encode probe (siblingChain n) ++ rest, true⟩
      = some (true, ⟨rest, true⟩, siblingChain n) ∧
    (∀ k, k ≤ n →
      ReadTreeFuel k stale ⟨encode probe (siblingChain n) ++ rest, true⟩ = none) ∧
    (∀ k, n < k →
      ReadTreeFuel k stale ⟨encode probe (siblingChain n) ++ rest, true⟩
        = some (true, ⟨rest, true⟩, siblingChain n)) ∧
    (siblingChain n).destroyDepth = n :=
  ⟨ReadTree_encode probe stale (siblingChain n) rest (siblingChain_valid n) hp,
   fun k hk => ReadTreeFuel_depth_none (siblingChain n) probe stale rest k
     (siblingChain_valid n) hp (by rw [siblingChain_depth]; exact hk),
   fun k hk => ReadTreeFuel_encode (siblingChain n) probe stale rest k
     (siblingChain_valid n) hp (by rw [siblingChain_depth]; exact hk),
   siblingChain_destroyDepth n⟩

/-- C15 as amended, at the chain of 100,000 entries. -/
theorem C15_sibling_chain_nests_witness :
    (∀ p, probe0 p % 4294967296 ≠ DIRTREE_LIST_TERMINATED) ∧
    ReadTree stale0 ⟨encode probe0 (siblingChain 100000) ++ [], true⟩
      = some (true, ⟨[], true⟩, siblingChain 100000) ∧
    (∀ k, k ≤ 100000 →
      ReadTreeFuel k stale0 ⟨encode probe0 (siblingChain 100000) ++ [], true⟩ = none) ∧
    (∀ k, 100000 < k →
      ReadTreeFuel k stale0 ⟨encode probe0 (siblingChain 100000) ++ [], true⟩
        = some (true, ⟨[], true⟩, siblingChain 100000)) ∧
    (siblingChain 100000).destroyDepth = 100000 :=
  ⟨fun _ => by simp [probe0, DIRTREE_LIST_TERMINATED],
   C15_sibling_chain_nests 100000 probe0 stale0 []
     (fun _ => by simp [probe0, DIRTREE_LIST_TERMINATED])⟩

/-- C16: the slot probe is a separate field whose value is discarded.  Two streams that differ
only in the four bytes of a probe, neither being the sentinel, give the same result: the same
`bool`, the same tree and the same stream afterwards.  For every such probe a node is
materialised, and the four bytes after the probe are read as the name length: when they hold a
positive length and that many bytes follow, those bytes are the name of the node.  In the layout
of a valid tree the probes of all slots, nested ones included, can be changed to any other
values that are not the sentinel without changing the result. -/
theorem C16_probe_value_discarded (stale : List Bool → Locals) (p1 p2 rest : List Byte)
    (h1 : p1.length = 4) (h2 : p2.length = 4)
    (n1 : fromBytes p1 ≠ DIRTREE_LIST_TERMINATED)
    (n2 : fromBytes p2 ≠ DIRTREE_LIST_TERMINATED) :
    ReadTree stale ⟨p1 ++ rest, true⟩ = ReadTree stale ⟨p2 ++ rest, true⟩ ∧
    (∃ ok f Name Time AttributeFlags Size Offset Hints Children Siblings,
      ReadTree stale ⟨p1 ++ rest, true⟩
        = some (ok, f,
            .node Name Time AttributeFlags Size Offset Hints .null Children Siblings) ∧
      ∀ len tail, rest = len ++ tail → len.length = 4 → 0 < toInt32 (fromBytes len) →
        (toInt32 (fromBytes len)).toNat ≤ tail.length →
        Name = tail.take (toInt32 (fromBytes len)).toNat) ∧
    (∀ (t : DirTree) (probeA probeB : List Bool → Nat) (after : List Byte), t.Valid →
      (∀ p, probeA p % 4294967296 ≠ DIRTREE_LIST_TERMINATED) →
      (∀ p, probeB p % 4294967296 ≠ DIRTREE_LIST_TERMINATED) →
      ReadTree stale ⟨encode probeA t ++ after, true⟩
        = ReadTree stale ⟨encode probeB t ++ after, true⟩) := by
  refine ⟨?_, ?_, ?_⟩
  · simp only [ReadTree, List.length_append, h1, h2]
    rw [ReadTreeFuel_probe_front _ stale p1 rest h1 n1,
      ReadTreeFuel_probe_front _ stale p2 rest h2 n2]
  · obtain ⟨ok, f, C, Sib, h⟩ := ReadTree_node_of_probe stale p1 rest h1 n1
    refine ⟨ok, f, _, _, _, _, _, _, C, Sib, h, ?_⟩
    intro len tail hr hl hpos hle
    subst hr
    exact ReadTreeFields_name_front _ len tail hl hpos hle
  · intro t probeA probeB after hv hA hB
    rw [ReadTree_encode probeA stale t after hv hA, ReadTree_encode probeB stale t after hv hB]

/-- C16 at the leaf "A.txt": the probes 4 and `0x01000000` in front of the same bytes. -/
theorem C16_probe_value_discarded_witness :
    ([4, 0, 0, 0] : List Byte).length = 4 ∧ ([0, 0, 0, 1] : List Byte).length = 4 ∧
    fromBytes [4, 0, 0, 0] ≠ DIRTREE_LIST_TERMINATED ∧
    fromBytes [0, 0, 0, 1] ≠ DIRTREE_LIST_TERMINATED ∧
    ReadTree stale0 ⟨[4, 0, 0, 0] ++ leafAfterProbe, true⟩
      = ReadTree stale0 ⟨[0, 0, 0, 1] ++ leafAfterProbe, true⟩ ∧
    ReadTree stale0 ⟨[0, 0, 0, 1] ++ leafAfterProbe, true⟩
      = some (true, ⟨[], true⟩, leafAtxt 1 2 3 4 5) :=
  ⟨rfl, rfl, by decide, by decide,
   (C16_probe_value_discarded stale0 [4, 0, 0, 0] [0, 0, 0, 1] leafAfterProbe rfl rfl
     (by decide) (by decide)).1,
   rfl⟩

/-- C17: `ReadTree` terminates on every stream, within `remaining bytes / 32 + 1` nested
activations.  Every node that got to its recursive calls took at least 32 bytes; those are all
the nodes of the returned tree on success and all but one (the node whose checked read failed)
on failure, so their number is at most `remaining bytes / 32`. -/
theorem C17_terminates_within_bytes_over_32 (stale : List Bool → Locals) (file : ifstream) :
    ∃ ok f t, ReadTreeFuel (file.rest.length / 32 + 1) stale file = some (ok, f, t) ∧
      32 * (t.size - (if ok = true then 0 else 1)) + f.rest.length ≤ file.rest.length ∧
      t.size - (if ok = true then 0 else 1) ≤ file.rest.length / 32 := by
  obtain ⟨⟨ok, f, t⟩, hr⟩ := Option.isSome_iff_exists.mp (ReadTree_isSome stale file)
  have hs := ReadTreeFuel_size _ stale file f ok t hr
  have hl := ReadTreeFuel_length_le _ stale file f ok t hr
  refine ⟨ok, f, t, hr, ?_, ?_⟩
  · cases ok <;> simp at hs ⊢ <;> omega
  · cases ok <;> simp at hs ⊢ <;> omega

/-- C18: exact consumption.  When `ReadTree` returns `true` and leaves the stream in a good
state, the stream was good before, the number of bytes taken is 4 plus, summed over the nodes of
the returned tree, 36 plus the length of the stored name plus the length of the stored hint, and
what is left of the stream is exactly what follows those bytes. -/
theorem C18_exact_consumption (stale : List Bool → Locals) (file f : ifstream) (t : DirTree)
    (h : ReadTree stale file = some (true, f, t)) (hg : f.good = true) :
    file.good = true ∧ file.rest.length = 4 + t.contentBytes + f.rest.length ∧
      f.rest = file.rest.drop (4 + t.contentBytes) := by
  obtain ⟨h0, h1, h2⟩ := ReadTreeFuel_exact _ stale file f t h hg
  refine ⟨h0, ?_, h2⟩
  rw [h2, List.length_drop]
  omega

/-- C18 at root "A" with child "B" (two hint bytes) and sibling "C", followed by three more
bytes: 4 + 37 + 39 + 37 = 117 bytes are taken. -/
theorem C18_exact_consumption_witness :
    ReadTree stale0 ⟨encode probe0 treeABC ++ [1, 2, 3], true⟩
      = some (true, ⟨[1, 2, 3], true⟩, treeABC) ∧
    4 + treeABC.contentBytes = 117 ∧
    (encode probe0 treeABC ++ [1, 2, 3]).length = 4 + treeABC.contentBytes + 3 ∧
    ([1, 2, 3] : List Byte) = (encode probe0 treeABC ++ [1, 2, 3]).drop (4 + treeABC.contentBytes) :=
  ⟨ReadTree_encode probe0 stale0 treeABC [1, 2, 3] (by simp [treeABC, DirTree.Valid])
     (fun _ => by simp [probe0, DIRTREE_LIST_TERMINATED]),
   rfl,
   (C18_exact_consumption stale0 ⟨encode probe0 treeABC ++ [1, 2, 3], true⟩ ⟨[1, 2, 3], true⟩
     treeABC
     (ReadTree_encode probe0 stale0 treeABC [1, 2, 3] (by simp [treeABC, DirTree.Valid])
       (fun _ => by simp [probe0, DIRTREE_LIST_TERMINATED])) rfl).2.1,
   (C18_exact_consumption stale0 ⟨encode probe0 treeABC ++ [1, 2, 3], true⟩ ⟨[1, 2, 3], true⟩
     treeABC
     (ReadTree_encode probe0 stale0 treeABC [1, 2, 3] (by simp [treeABC, DirTree.Valid])
       (fun _ => by simp [probe0, DIRTREE_LIST_TERMINATED])) rfl).2.2⟩

end VFSReader
